import Mathlib

set_option maxHeartbeats 1000000

/-!
Shallow embedding of the term3d terminal 3D renderer.

Conventions used throughout:
* Python machine integers are modelled as `ℤ`, Python floats as exact
  rationals `ℚ` in the buffer/rasterizer code (which performs only field
  operations on them) and as real numbers `ℝ` in the vector/light/matrix
  code (which calls `math.sqrt` / `math.cos` / `math.tan`).
* `float('inf')` depth values are modelled as `none : Option ℚ`.
* Fallible operations (list indexing, division) return `Option`.
-/

/-- Python `int(q)` applied to a float value: truncation toward zero. -/
def pyInt (q : ℚ) : ℤ := if 0 ≤ q then ⌊q⌋ else ⌈q⌉

/-- Python list read `l[i]`: a negative index addresses from the end;
an out-of-range index raises `IndexError` (modelled as `none`). -/
def pyGet (l : List α) (i : ℤ) : Option α :=
  let j := if 0 ≤ i then i else (l.length : ℤ) + i
  if 0 ≤ j then l.get? j.toNat else none

/-- Python list write `l[i] = a`: a negative index addresses from the end;
an out-of-range index raises `IndexError` (modelled as `none`). -/
def pySet (l : List α) (i : ℤ) (a : α) : Option (List α) :=
  let j := if 0 ≤ i then i else (l.length : ℤ) + i
  if 0 ≤ j ∧ j.toNat < l.length then some (l.set j.toNat a) else none

/-- Python integer floor division `a // b`; raises on `b = 0`. -/
def pyFloorDiv (a b : ℤ) : Option ℤ :=
  if b = 0 then none else some (Int.fdiv a b)

/-- An RGB color triple (`renderer.clear_color`, light colors, ...). -/
abbrev Color3 := ℤ × ℤ × ℤ

/-- An RGBA pixel as stored in `color_buffer` (alpha is a was-written flag). -/
abbrev Color4 := ℤ × ℤ × ℤ × ℤ

/-- The mutable state of `renderer.Renderer` that the verified claims touch.
`base_width_c`/`base_height_c` model the attributes that
`term3d.resize_engine` creates on the renderer object (they do not exist
before the first resize, hence `Option`); the `Renderer` class itself never
reads them. -/
structure Renderer where
  base_width_chars : ℤ
  base_height_chars : ℤ
  clear_color : Color3
  res_factor : ℚ
  pixel_width : ℤ
  pixel_height : ℤ
  color_buffer : List Color4
  depth_buffer : List (Option ℚ)
  base_width_c : Option ℤ
  base_height_c : Option ℤ
  deriving DecidableEq

/-- `Renderer.set_resolution_factor` (renderer.py:86-99): recompute the pixel
dimensions and reallocate both flat buffers.  Python `[x] * n` with `n ≤ 0`
is the empty list, hence `Int.toNat`. -/
def setResolutionFactor (r : Renderer) (factor : ℚ) : Renderer :=
  let pw := pyInt (r.base_width_chars * factor)
  let ph := pyInt (r.base_height_chars * factor) * 2
  let num := (pw * ph).toNat
  { r with
    res_factor := factor
    pixel_width := pw
    pixel_height := ph
    color_buffer := List.replicate num (0, 0, 0, 0)
    depth_buffer := List.replicate num none }

/-- `Renderer.__init__` (renderer.py:25-31): store the character-grid size
and the default clear color, then initialize the buffers through
`set_resolution_factor(1.0)`. -/
def Renderer.init (width_chars height_chars : ℤ) : Renderer :=
  setResolutionFactor
    { base_width_chars := width_chars
      base_height_chars := height_chars
      clear_color := (12, 12, 20)
      res_factor := 0
      pixel_width := 0
      pixel_height := 0
      color_buffer := []
      depth_buffer := []
      base_width_c := none
      base_height_c := none } 1

/-- `Renderer.clear_buffers` (renderer.py:105-113): refill the color buffer
with the clear color (alpha 0) and the depth buffer with `+inf`. -/
def clearBuffers (r : Renderer) : Renderer :=
  let num := (r.pixel_width * r.pixel_height).toNat
  let bg := r.clear_color
  { r with
    color_buffer := List.replicate num (bg.1, bg.2.1, bg.2.2, 0)
    depth_buffer := List.replicate num none }

/-- `term3d.resize_engine` (core.py:516-527): clamp the new character-grid
size to the 30×12 minimum, store it on the renderer, and call
`set_resolution_factor` with the unchanged factor.  Note that the Python
code assigns to `renderer.base_width_c` / `renderer.base_height_c`, which
are attribute names distinct from the `base_width_chars` /
`base_height_chars` fields read by `set_resolution_factor`. -/
def resizeEngine (r : Renderer) (width_chars height_chars : ℤ) : Renderer :=
  let w := max 30 width_chars
  let h := max 12 height_chars
  setResolutionFactor { r with base_width_c := some w, base_height_c := some h } r.res_factor

/-- C3: resizing the character grid is supposed to re-trigger the buffer
reallocation at the new grid size, but `resize_engine` stores the clamped
size into the attributes `base_width_c`/`base_height_c` which the renderer
never reads, so the buffers are reallocated at the OLD character-grid size:
resizing a 30×12 engine to 40×20 at factor 1 leaves `pixel_width = 30` and
`pixel_height = 24` instead of the claimed `40` and `40`. -/
theorem resizeEngine_ignores_new_size :
    (resizeEngine (Renderer.init 30 12) 40 20).pixel_width = 30 ∧
    (resizeEngine (Renderer.init 30 12) 40 20).pixel_height = 24 ∧
    (resizeEngine (Renderer.init 30 12) 40 20).base_width_c = some 40 ∧
    (resizeEngine (Renderer.init 30 12) 40 20).base_height_c = some 20 ∧
    (resizeEngine (Renderer.init 30 12) 40 20).base_width_chars = 30 ∧
    (resizeEngine (Renderer.init 30 12) 40 20).base_height_chars = 12 := by
  norm_num [resizeEngine, Renderer.init, setResolutionFactor, pyInt]

/-- C4 counterexample: after `set_resolution_factor` the color entries are
`(0,0,0,0)`, not the configured clear color `(12,12,20)` with alpha 0
(the clear color is only applied by `clear_buffers`). -/
theorem setResolutionFactor_not_clear_color :
    (setResolutionFactor (Renderer.init 30 12) 1).clear_color = (12, 12, 20) ∧
    pyGet (setResolutionFactor (Renderer.init 30 12) 1).color_buffer 0 = some (0, 0, 0, 0) ∧
    ((0, 0, 0, 0) : Color4) ≠ ((12, 12, 20, 0) : Color4) := by
  refine ⟨rfl, ?_, by decide⟩
  norm_num [pyGet, Renderer.init, setResolutionFactor, pyInt, List.get?_eq_getElem?,
    List.getElem?_replicate]

/-- C4 (amended): for `f ≥ 0` on a renderer with nonnegative character-grid
size, `set_resolution_factor f` recomputes `pixelWidth = ⌊charWidth·f⌋` and
`pixelHeight = ⌊charHeight·f⌋·2`, reallocates both buffers to
`pixelWidth · pixelHeight` entries, sets every color entry to `(0,0,0,0)`
(black, alpha 0 — not the configured clear color) and every depth entry to
`+inf`, and calling it twice with the same `f` gives the identical renderer
state. -/
theorem setResolutionFactor_spec (r : Renderer) (f : ℚ) (hf : 0 ≤ f)
    (hw : 0 ≤ r.base_width_chars) (hh : 0 ≤ r.base_height_chars) :
    (setResolutionFactor r f).pixel_width = ⌊(r.base_width_chars : ℚ) * f⌋ ∧
    (setResolutionFactor r f).pixel_height = ⌊(r.base_height_chars : ℚ) * f⌋ * 2 ∧
    ((setResolutionFactor r f).color_buffer.length : ℤ) =
      (setResolutionFactor r f).pixel_width * (setResolutionFactor r f).pixel_height ∧
    ((setResolutionFactor r f).depth_buffer.length : ℤ) =
      (setResolutionFactor r f).pixel_width * (setResolutionFactor r f).pixel_height ∧
    (∀ c ∈ (setResolutionFactor r f).color_buffer, c = (0, 0, 0, 0)) ∧
    (∀ d ∈ (setResolutionFactor r f).depth_buffer, d = none) ∧
    setResolutionFactor (setResolutionFactor r f) f = setResolutionFactor r f := by
  have hwq : (0 : ℚ) ≤ (r.base_width_chars : ℚ) * f :=
    mul_nonneg (by exact_mod_cast hw) hf
  have hhq : (0 : ℚ) ≤ (r.base_height_chars : ℚ) * f :=
    mul_nonneg (by exact_mod_cast hh) hf
  have hpw : pyInt ((r.base_width_chars : ℚ) * f) = ⌊(r.base_width_chars : ℚ) * f⌋ := by
    simp [pyInt, hwq]
  have hph : pyInt ((r.base_height_chars : ℚ) * f) = ⌊(r.base_height_chars : ℚ) * f⌋ := by
    simp [pyInt, hhq]
  have hpw0 : 0 ≤ pyInt ((r.base_width_chars : ℚ) * f) := by
    rw [hpw]; exact Int.floor_nonneg.2 hwq
  have hph0 : 0 ≤ pyInt ((r.base_height_chars : ℚ) * f) * 2 := by
    rw [hph]; positivity
  have hnum : (0 : ℤ) ≤ pyInt ((r.base_width_chars : ℚ) * f) *
      (pyInt ((r.base_height_chars : ℚ) * f) * 2) := mul_nonneg hpw0 hph0
  refine ⟨hpw, by rw [show (setResolutionFactor r f).pixel_height =
      pyInt ((r.base_height_chars : ℚ) * f) * 2 from rfl, hph], ?_, ?_, ?_, ?_, rfl⟩
  · show ((List.replicate _ _).length : ℤ) = _
    rw [List.length_replicate]
    exact_mod_cast Int.toNat_of_nonneg hnum
  · show ((List.replicate _ _).length : ℤ) = _
    rw [List.length_replicate]
    exact_mod_cast Int.toNat_of_nonneg hnum
  · intro c hc
    exact (List.eq_of_mem_replicate hc)
  · intro d hd
    exact (List.eq_of_mem_replicate hd)

/-- C4 witness: instantiation of the amended resolution spec at a concrete
renderer and factor 3/2. -/
theorem setResolutionFactor_spec_witness :
    (setResolutionFactor (Renderer.init 30 12) (3/2)).pixel_width =
      ⌊((Renderer.init 30 12).base_width_chars : ℚ) * (3/2)⌋ ∧
    setResolutionFactor (setResolutionFactor (Renderer.init 30 12) (3/2)) (3/2) =
      setResolutionFactor (Renderer.init 30 12) (3/2) := by
  have h := setResolutionFactor_spec (Renderer.init 30 12) (3/2)
    (by norm_num) (by norm_num [Renderer.init, setResolutionFactor])
    (by norm_num [Renderer.init, setResolutionFactor])
  exact ⟨h.1, h.2.2.2.2.2.2⟩

/-! ## Real-valued vector algebra (vec3lib.Vec3)

The vector/light code calls `math.sqrt` and trigonometric functions, so it
is embedded over `ℝ` (the branch conditions use the classical decidability
instances of `ℝ`). -/

/-- `Vec3` (vec3lib.py): a 3-component float vector. -/
structure Vec3R where
  x : ℝ
  y : ℝ
  z : ℝ

/-- `Vec3.EPS` (vec3lib.py:8). -/
def vecEPS : ℝ := 1e-9

/-- `Vec3.__add__`. -/
def Vec3R.add (a b : Vec3R) : Vec3R := ⟨a.x + b.x, a.y + b.y, a.z + b.z⟩

/-- `Vec3.__sub__`. -/
def Vec3R.sub (a b : Vec3R) : Vec3R := ⟨a.x - b.x, a.y - b.y, a.z - b.z⟩

/-- `Vec3.__neg__`. -/
def Vec3R.neg (a : Vec3R) : Vec3R := ⟨-a.x, -a.y, -a.z⟩

/-- `Vec3.__mul__` with a scalar. -/
def Vec3R.smul (a : Vec3R) (s : ℝ) : Vec3R := ⟨a.x * s, a.y * s, a.z * s⟩

/-- `Vec3.dot`. -/
def Vec3R.dot (a b : Vec3R) : ℝ := a.x * b.x + a.y * b.y + a.z * b.z

/-- `Vec3.cross`. -/
def Vec3R.cross (a b : Vec3R) : Vec3R :=
  ⟨a.y * b.z - a.z * b.y, a.z * b.x - a.x * b.z, a.x * b.y - a.y * b.x⟩

/-- `Vec3.length_sq`. -/
def Vec3R.length_sq (a : Vec3R) : ℝ := a.x * a.x + a.y * a.y + a.z * a.z

/-- `Vec3.length` (vec3lib.py:81-82): `math.sqrt(self.length_sq()) or self.EPS` —
Python `or` substitutes `EPS` exactly when the square root is `0.0`. -/
noncomputable def Vec3R.length (a : Vec3R) : ℝ :=
  if Real.sqrt a.length_sq = 0 then vecEPS else Real.sqrt a.length_sq

/-- `Vec3.norm` (vec3lib.py:84-89): zero-safe normalization guarded by an
epsilon on the squared length. -/
noncomputable def Vec3R.norm (a : Vec3R) : Vec3R :=
  if a.x * a.x + a.y * a.y + a.z * a.z < 1e-9 then ⟨0, 0, 0⟩
  else
    let inv := 1 / Real.sqrt (a.x * a.x + a.y * a.y + a.z * a.z)
    ⟨a.x * inv, a.y * inv, a.z * inv⟩

/-- C6: `normalize(v)` has length exactly 1 (over the reals; "≈ 1" in
floating point) whenever the squared length is at least the `1e-9` guard,
and is exactly the zero vector below the guard; the function is total, so
no division error can occur. -/
theorem norm_length_spec (v : Vec3R) :
    (v.length_sq < 1e-9 → v.norm = ⟨0, 0, 0⟩) ∧
    (1e-9 ≤ v.length_sq → v.norm.length = 1) := by
  constructor
  · intro h
    unfold Vec3R.norm
    rw [if_pos (by simpa [Vec3R.length_sq] using h)]
  · intro h
    have hL : v.length_sq = v.x * v.x + v.y * v.y + v.z * v.z := rfl
    rw [hL] at h
    have hsq : (0 : ℝ) < v.x * v.x + v.y * v.y + v.z * v.z :=
      lt_of_lt_of_le (by norm_num) h
    have hs : 0 < Real.sqrt (v.x * v.x + v.y * v.y + v.z * v.z) := Real.sqrt_pos.2 hsq
    have hnorm : v.norm = ⟨v.x * (1 / Real.sqrt (v.x * v.x + v.y * v.y + v.z * v.z)),
        v.y * (1 / Real.sqrt (v.x * v.x + v.y * v.y + v.z * v.z)),
        v.z * (1 / Real.sqrt (v.x * v.x + v.y * v.y + v.z * v.z))⟩ := by
      unfold Vec3R.norm
      rw [if_neg (not_lt.2 h)]
    have hss : Real.sqrt (v.x * v.x + v.y * v.y + v.z * v.z) *
        Real.sqrt (v.x * v.x + v.y * v.y + v.z * v.z) =
        v.x * v.x + v.y * v.y + v.z * v.z := Real.mul_self_sqrt hsq.le
    have hlen : v.norm.length_sq = 1 := by
      rw [hnorm]
      unfold Vec3R.length_sq
      field_simp
    unfold Vec3R.length
    rw [hlen]
    norm_num

/-- C6 witness: the normalization dichotomy at the zero vector and at
`(3,4,0)`. -/
theorem norm_length_spec_witness :
    (Vec3R.mk 0 0 0).norm = ⟨0, 0, 0⟩ ∧ (Vec3R.mk 3 4 0).norm.length = 1 :=
  ⟨(norm_length_spec ⟨0, 0, 0⟩).1 (by norm_num [Vec3R.length_sq]),
   (norm_length_spec ⟨3, 4, 0⟩).2 (by norm_num [Vec3R.length_sq])⟩

/-! ## Lights (objects.py) -/

/-- `PointLight` (objects.py:45-56). -/
structure PointLightR where
  position : Vec3R
  color : Color3
  intensity : ℝ

/-- `PointLight.attenuation` (objects.py:52-56):
`1 / (1 + 0.1*dist + 0.02*dist²)` where `dist` is the (epsilon-guarded)
distance between fragment and light. -/
noncomputable def PointLightR.attenuation (l : PointLightR) (frag_pos : Vec3R) : ℝ :=
  let dist := (frag_pos.sub l.position).length
  1 / (1 + 0.1 * dist + 0.02 * (dist * dist))

/-- C8 counterexample: at distance 0 the guarded `length()` returns
`EPS = 1e-9`, so the attenuation is `1/(1 + 1e-10 + 0.02e-18) ≠ 1.0`; and a
fragment at the tiny positive distance `1e-10` gets a *larger* attenuation
than a fragment at distance 0, so attenuation is not strictly decreasing in
the true distance on `[0, ∞)`. -/
theorem attenuation_zero_counterexample :
    (PointLightR.mk ⟨0, 0, 0⟩ (255, 255, 255) 1).attenuation ⟨0, 0, 0⟩ ≠ 1 ∧
    (PointLightR.mk ⟨0, 0, 0⟩ (255, 255, 255) 1).attenuation ⟨0, 0, 0⟩ <
      (PointLightR.mk ⟨0, 0, 0⟩ (255, 255, 255) 1).attenuation ⟨1e-10, 0, 0⟩ := by
  have h0 : (Vec3R.mk 0 0 0).length = vecEPS := by
    unfold Vec3R.length
    rw [if_pos (by norm_num [Vec3R.length_sq])]
  have h1 : (Vec3R.mk 1e-10 0 0).length = 1e-10 := by
    unfold Vec3R.length
    have : (Vec3R.mk 1e-10 0 0).length_sq = (1e-10) ^ 2 := by
      norm_num [Vec3R.length_sq]
    rw [this, Real.sqrt_sq (by norm_num)]
    norm_num
  constructor
  · unfold PointLightR.attenuation
    have hs : (Vec3R.mk 1e-10 0 0).sub ⟨0, 0, 0⟩ = ⟨1e-10, 0, 0⟩ := by
      simp [Vec3R.sub]
    have hz : (Vec3R.mk 0 0 0).sub ⟨0, 0, 0⟩ = ⟨0, 0, 0⟩ := by
      simp [Vec3R.sub]
    rw [hz, h0]
    unfold vecEPS
    norm_num
  · unfold PointLightR.attenuation
    have hs : (Vec3R.mk 1e-10 0 0).sub ⟨0, 0, 0⟩ = ⟨1e-10, 0, 0⟩ := by
      simp [Vec3R.sub]
    have hz : (Vec3R.mk 0 0 0).sub ⟨0, 0, 0⟩ = ⟨0, 0, 0⟩ := by
      simp [Vec3R.sub]
    rw [hz, hs, h0, h1]
    unfold vecEPS
    rw [div_lt_div_iff (by norm_num) (by norm_num)]
    norm_num

/-- The true Euclidean distance between a fragment and a light position
(used to state monotonicity of the attenuation in the distance). -/
noncomputable def trueDist (pos frag : Vec3R) : ℝ :=
  Real.sqrt (frag.sub pos).length_sq

/-- C8 (amended): a point light's attenuation at distance 0 equals
`1/(1 + 0.1·ε + 0.02·ε²)` with `ε = 1e-9` (strictly less than 1, because
`length()` substitutes the epsilon for a zero distance), and the
attenuation is strictly decreasing in the distance over strictly positive
distances, following `1/(1 + 0.1·dist + 0.02·dist²)`. -/
theorem attenuation_spec (l : PointLightR) (f1 f2 : Vec3R)
    (h1 : 0 < trueDist l.position f1) (h12 : trueDist l.position f1 < trueDist l.position f2) :
    l.attenuation l.position = 1 / (1 + 0.1 * vecEPS + 0.02 * (vecEPS * vecEPS)) ∧
    l.attenuation l.position < 1 ∧
    l.attenuation f2 < l.attenuation f1 := by
  have hzero : (l.position.sub l.position).length = vecEPS := by
    unfold Vec3R.length
    have hz : (l.position.sub l.position).length_sq = 0 := by
      simp [Vec3R.sub, Vec3R.length_sq]
    rw [hz]
    simp [Real.sqrt_zero]
  simp only [trueDist] at h1 h12
  have hlen1 : (f1.sub l.position).length = Real.sqrt (f1.sub l.position).length_sq := by
    unfold Vec3R.length
    rw [if_neg (ne_of_gt h1)]
  have hlen2 : (f2.sub l.position).length = Real.sqrt (f2.sub l.position).length_sq := by
    unfold Vec3R.length
    rw [if_neg (ne_of_gt (lt_trans h1 h12))]
  refine ⟨?_, ?_, ?_⟩
  · unfold PointLightR.attenuation
    rw [hzero]
  · unfold PointLightR.attenuation
    rw [hzero]
    unfold vecEPS
    rw [div_lt_one (by norm_num)]
    norm_num
  · unfold PointLightR.attenuation
    rw [hlen1, hlen2]
    set d1 := Real.sqrt (f1.sub l.position).length_sq
    set d2 := Real.sqrt (f2.sub l.position).length_sq
    apply div_lt_div_of_pos_left (by norm_num)
    · nlinarith
    · nlinarith

/-- C8 witness: the amended attenuation spec at a light at the origin with
fragments at distances 1 and 2. -/
theorem attenuation_spec_witness :
    (PointLightR.mk ⟨0, 0, 0⟩ (255, 255, 255) 1).attenuation ⟨0, 0, 0⟩ =
      1 / (1 + 0.1 * vecEPS + 0.02 * (vecEPS * vecEPS)) ∧
    (PointLightR.mk ⟨0, 0, 0⟩ (255, 255, 255) 1).attenuation ⟨2, 0, 0⟩ <
      (PointLightR.mk ⟨0, 0, 0⟩ (255, 255, 255) 1).attenuation ⟨1, 0, 0⟩ := by
  have hd1 : trueDist (Vec3R.mk 0 0 0) ⟨1, 0, 0⟩ = 1 := by
    unfold trueDist
    have : (Vec3R.mk 1 0 0).sub ⟨0, 0, 0⟩ = ⟨1, 0, 0⟩ := by simp [Vec3R.sub]
    rw [this]
    norm_num [Vec3R.length_sq]
  have hd2 : trueDist (Vec3R.mk 0 0 0) ⟨2, 0, 0⟩ = 2 := by
    unfold trueDist
    have h4 : (Vec3R.mk 2 0 0).sub ⟨0, 0, 0⟩ = ⟨2, 0, 0⟩ := by simp [Vec3R.sub]
    rw [h4]
    have : (Vec3R.mk 2 0 0).length_sq = 2 ^ 2 := by norm_num [Vec3R.length_sq]
    rw [this, Real.sqrt_sq (by norm_num)]
  have h := attenuation_spec (PointLightR.mk ⟨0, 0, 0⟩ (255, 255, 255) 1) ⟨1, 0, 0⟩ ⟨2, 0, 0⟩
    (by rw [show (PointLightR.mk ⟨0, 0, 0⟩ (255, 255, 255) 1).position = ⟨0, 0, 0⟩ from rfl,
          hd1]; norm_num)
    (by rw [show (PointLightR.mk ⟨0, 0, 0⟩ (255, 255, 255) 1).position = ⟨0, 0, 0⟩ from rfl,
          hd1, hd2]; norm_num)
  exact ⟨h.1, h.2.2⟩

/-- `math.radians`: degrees to radians. -/
noncomputable def radians (d : ℝ) : ℝ := d * (Real.pi / 180)

/-- `SpotLight` (objects.py:14-43).  The constructor normalizes the
direction and converts both angles to radians, see `SpotLightR.make`. -/
structure SpotLightR where
  position : Vec3R
  direction : Vec3R
  color : Color3
  intensity : ℝ
  inner_angle : ℝ
  outer_angle : ℝ

/-- `SpotLight.__init__` (objects.py:16-22). -/
noncomputable def SpotLightR.make (position direction : Vec3R) (color : Color3)
    (intensity inner_angle outer_angle : ℝ) : SpotLightR :=
  ⟨position, direction.norm, color, intensity, radians inner_angle, radians outer_angle⟩

/-- `SpotLight.cone_factor` (objects.py:24-37). -/
noncomputable def SpotLightR.cone_factor (s : SpotLightR) (frag_pos : Vec3R) : ℝ :=
  let L := (frag_pos.sub s.position).norm
  let cos_theta := s.direction.dot L.neg
  let cos_inner := Real.cos s.inner_angle
  let cos_outer := Real.cos s.outer_angle
  if cos_theta < cos_outer then 0
  else if cos_inner < cos_theta then 1
  else (cos_theta - cos_outer) / (cos_inner - cos_outer)

/-- C2: for a spot light at the origin pointing along `+z` with
`inner_angle = 40°, outer_angle = 60°`, the fragment `(0,0,1)` lies exactly
on the light's forward axis, yet `cone_factor` returns `0.0` instead of the
claimed `1.0`: the code computes `direction · (−L)` where `L` is the unit
vector from the light toward the fragment, so an on-axis fragment gets
cosine `−1 < cos(60°)` and falls outside the outer cone. -/
theorem cone_factor_on_axis_is_zero :
    (SpotLightR.make ⟨0, 0, 0⟩ ⟨0, 0, 1⟩ (255, 255, 255) 1 40 60).cone_factor ⟨0, 0, 1⟩ = 0 := by
  have hnorm1 : (Vec3R.mk 0 0 1).norm = ⟨0, 0, 1⟩ := by
    unfold Vec3R.norm
    rw [if_neg (by norm_num)]
    norm_num [Real.sqrt_one]
  have hdir : (SpotLightR.make ⟨0, 0, 0⟩ ⟨0, 0, 1⟩ (255, 255, 255) 1 40 60).direction =
      ⟨0, 0, 1⟩ := by
    show (Vec3R.mk 0 0 1).norm = ⟨0, 0, 1⟩
    exact hnorm1
  have hpos : (SpotLightR.make ⟨0, 0, 0⟩ ⟨0, 0, 1⟩ (255, 255, 255) 1 40 60).position =
      ⟨0, 0, 0⟩ := rfl
  have houter : (SpotLightR.make ⟨0, 0, 0⟩ ⟨0, 0, 1⟩ (255, 255, 255) 1 40 60).outer_angle =
      Real.pi / 3 := by
    show radians 60 = Real.pi / 3
    unfold radians
    ring
  unfold SpotLightR.cone_factor
  rw [hdir, hpos, houter]
  have hsub : (Vec3R.mk 0 0 1).sub ⟨0, 0, 0⟩ = ⟨0, 0, 1⟩ := by simp [Vec3R.sub]
  rw [hsub, hnorm1]
  simp only [Real.cos_pi_div_three, Vec3R.neg, Vec3R.dot]
  norm_num

/-! ## 4×4 matrices (mat4lib.Mat4)

The Python class stores 16 floats in a flat column-major list `m`, with
`m[col*4 + row]` the entry at (row, col).  We model it as
`Matrix (Fin 4) (Fin 4) ℝ` indexed (row, col); the source's multiplication
loop `c[j*4+i] = Σₖ a[i+4k]·b[j*4+k]` is then exactly
`(A*B) i j = Σₖ A i k · B k j`, the `Matrix` product. -/

abbrev Mat4 := Matrix (Fin 4) (Fin 4) ℝ

/-- `Mat4.identity`. -/
def Mat4.identM : Mat4 := 1

/-- `Mat4.scale` (mat4lib.py:22-29): `m[0]=x, m[5]=y, m[10]=z`. -/
def Mat4.scaleM (x y z : ℝ) : Mat4 :=
  Matrix.of ![![x, 0, 0, 0], ![0, y, 0, 0], ![0, 0, z, 0], ![0, 0, 0, 1]]

/-- `Mat4.translate` (mat4lib.py:31-38): `m[12]=x, m[13]=y, m[14]=z`
(column 3, rows 0-2). -/
def Mat4.translate (x y z : ℝ) : Mat4 :=
  Matrix.of ![![1, 0, 0, x], ![0, 1, 0, y], ![0, 0, 1, z], ![0, 0, 0, 1]]

/-- `Mat4.rotate_x` (mat4lib.py:40-48): `m[5]=c, m[6]=s, m[9]=-s, m[10]=c`. -/
noncomputable def Mat4.rotate_x (angle : ℝ) : Mat4 :=
  let c := Real.cos angle
  let s := Real.sin angle
  Matrix.of ![![1, 0, 0, 0], ![0, c, -s, 0], ![0, s, c, 0], ![0, 0, 0, 1]]

/-- `Mat4.rotate_y` (mat4lib.py:50-58): `m[0]=c, m[2]=-s, m[8]=s, m[10]=c`. -/
noncomputable def Mat4.rotate_y (angle : ℝ) : Mat4 :=
  let c := Real.cos angle
  let s := Real.sin angle
  Matrix.of ![![c, 0, s, 0], ![0, 1, 0, 0], ![-s, 0, c, 0], ![0, 0, 0, 1]]

/-- `Mat4.rotate_z` (mat4lib.py:61-69): `m[0]=c, m[1]=s, m[4]=-s, m[5]=c`. -/
noncomputable def Mat4.rotate_z (angle : ℝ) : Mat4 :=
  let c := Real.cos angle
  let s := Real.sin angle
  Matrix.of ![![c, -s, 0, 0], ![s, c, 0, 0], ![0, 0, 1, 0], ![0, 0, 0, 1]]

/-- `Mat4.perspective` (mat4lib.py:71-82): `f = 1/tan(radians(fov)/2)`,
`m[0]=f/aspect, m[5]=f, m[10]=(zfar+znear)/(znear-zfar), m[11]=-1,
m[14]=2·zfar·znear/(znear-zfar), m[15]=0`. -/
noncomputable def Mat4.perspective (fov aspect znear zfar : ℝ) : Mat4 :=
  let f := 1 / Real.tan (radians fov / 2)
  Matrix.of ![![f / aspect, 0, 0, 0],
              ![0, f, 0, 0],
              ![0, 0, (zfar + znear) / (znear - zfar), 2 * zfar * znear / (znear - zfar)],
              ![0, 0, -1, 0]]

/-- `Mat4.__mul__` with a `Vec3` (mat4lib.py:103-113): homogeneous point
transform with `w = 1`, followed by a perspective divide when the resulting
`w` is nonzero. -/
noncomputable def Mat4.mulVec3 (m : Mat4) (v : Vec3R) : Vec3R :=
  let x := v.x
  let y := v.y
  let z := v.z
  let w : ℝ := 1
  let vx := x * m 0 0 + y * m 0 1 + z * m 0 2 + w * m 0 3
  let vy := x * m 1 0 + y * m 1 1 + z * m 1 2 + w * m 1 3
  let vz := x * m 2 0 + y * m 2 1 + z * m 2 2 + w * m 2 3
  let vw := x * m 3 0 + y * m 3 1 + z * m 3 2 + w * m 3 3
  if vw ≠ 0 then ⟨vx / vw, vy / vw, vz / vw⟩ else ⟨vx, vy, vz⟩

/-! ## Scene graph (objects.Transform / objects.SceneNode) -/

/-- `Transform` (objects.py:108-114). -/
structure TransformR where
  pos : Vec3R
  rot : Vec3R
  scale : Vec3R
  pivot : Vec3R

/-- `Transform.to_matrix` (objects.py:116-125):
`T(pos) · T(pivot) · Ry · Rx · Rz · S(scale) · T(-pivot)`. -/
noncomputable def TransformR.to_matrix (t : TransformR) : Mat4 :=
  Mat4.translate t.pos.x t.pos.y t.pos.z *
  Mat4.translate t.pivot.x t.pivot.y t.pivot.z *
  Mat4.rotate_y t.rot.y *
  Mat4.rotate_x t.rot.x *
  Mat4.rotate_z t.rot.z *
  Mat4.scaleM t.scale.x t.scale.y t.scale.z *
  Mat4.translate (-t.pivot.x) (-t.pivot.y) (-t.pivot.z)

/-- `SceneNode` restricted to the fields relevant to `world_matrix`: its
own transform and the (possibly absent) parent back-reference. -/
inductive SceneNodeT where
  | mk (transform : TransformR) (parent : Option SceneNodeT)

/-- The node's own transform. -/
def SceneNodeT.transform : SceneNodeT → TransformR
  | .mk t _ => t

/-- The node's parent (none for a root). -/
def SceneNodeT.parent : SceneNodeT → Option SceneNodeT
  | .mk _ p => p

/-- The `while p is not None: m = p.transform.to_matrix() * m` loop of
`SceneNode.world_matrix` (objects.py:154-160). -/
noncomputable def SceneNodeT.climb : Mat4 → Option SceneNodeT → Mat4
  | m, none => m
  | m, some (.mk t p) => SceneNodeT.climb (t.to_matrix * m) p

/-- `SceneNode.world_matrix` (objects.py:154-160): start from the node's
local matrix and left-multiply by each ancestor's matrix walking up. -/
noncomputable def SceneNodeT.world_matrix (n : SceneNodeT) : Mat4 :=
  SceneNodeT.climb n.transform.to_matrix n.parent

/-- The ancestor loop commutes with a fixed right factor (by associativity
of matrix multiplication). -/
theorem SceneNodeT.climb_mul (Y : Mat4) :
    ∀ (p : Option SceneNodeT) (X : Mat4),
      SceneNodeT.climb (X * Y) p = SceneNodeT.climb X p * Y
  | none, X => by simp only [SceneNodeT.climb]
  | some (.mk t q), X => by
    simp only [SceneNodeT.climb]
    rw [← mul_assoc]
    exact SceneNodeT.climb_mul Y q (t.to_matrix * X)

/-- C7: for every node with a parent, the world matrix is the parent's
world matrix times the node's local matrix (so the ancestor-chain product
composes root-outermost). -/
theorem world_matrix_parent (t : TransformR) (p : SceneNodeT) :
    (SceneNodeT.mk t (some p)).world_matrix = p.world_matrix * t.to_matrix := by
  obtain ⟨tp, pp⟩ := p
  simp only [SceneNodeT.world_matrix, SceneNodeT.transform, SceneNodeT.parent,
    SceneNodeT.climb]
  exact SceneNodeT.climb_mul t.to_matrix pp tp.to_matrix

/-! ## Rasterizer (renderer.Renderer._rasterize_triangles / _draw_wireframe)

Projected vertices are integer pixel coordinates plus a depth; the depth is
`Option ℚ` with `none` standing for `float('inf')` ("behind camera").
Inside the pixel loops only exact field operations on floats occur, so the
rasterizer is embedded over `ℚ` and is fully executable.  Buffer accesses
go through `pyGet`/`pySet` so that an out-of-range index fails the whole
call, exactly like a Python `IndexError`. -/

/-- A projected vertex `(px, py, z)` as produced by `_project_vertices`. -/
abbrev PVert := ℤ × ℤ × Option ℚ

/-- Rational 3-vectors for the world-space vertex data consumed by the
rasterizer (centroid / edge-vector arithmetic only). -/
structure Vec3Q where
  x : ℚ
  y : ℚ
  z : ℚ
  deriving DecidableEq

/-- `Vec3.__add__` on the rational model. -/
def Vec3Q.add (a b : Vec3Q) : Vec3Q := ⟨a.x + b.x, a.y + b.y, a.z + b.z⟩

/-- `Vec3.__sub__` on the rational model. -/
def Vec3Q.sub (a b : Vec3Q) : Vec3Q := ⟨a.x - b.x, a.y - b.y, a.z - b.z⟩

/-- `Vec3.__mul__` with a scalar on the rational model. -/
def Vec3Q.smul (a : Vec3Q) (s : ℚ) : Vec3Q := ⟨a.x * s, a.y * s, a.z * s⟩

/-- `Vec3.cross` on the rational model. -/
def Vec3Q.cross (a b : Vec3Q) : Vec3Q :=
  ⟨a.y * b.z - a.z * b.y, a.z * b.x - a.x * b.z, a.x * b.y - a.y * b.x⟩

/-- The color/depth frame-buffer pair. -/
structure Buffers where
  color : List Color4
  depth : List (Option ℚ)
  deriving DecidableEq

/-- `z < d` for a finite float `z` against a possibly-infinite stored depth
(`none` is `+inf`, so every finite `z` beats it). -/
def dltB (z : ℚ) : Option ℚ → Bool
  | none => true
  | some d => decide (z < d)

/-- `z < d` where `z` itself may be non-finite (`inf` or `NaN` from
interpolating with an infinite endpoint): IEEE comparisons with `NaN` are
false and `inf < x` is false, so a `none` on the left never passes. -/
def wltB : Option ℚ → Option ℚ → Bool
  | none, _ => false
  | some z, d => dltB z d

/-- `edge_coeffs` (renderer.py:10-19). -/
def edgeCoeffs (x0 y0 x1 y1 : ℤ) : ℤ × ℤ × ℤ :=
  (y0 - y1, x1 - x0, x0 * y1 - y0 * x1)

/-- `mesh.material` values. -/
inductive Material where
  | flat
  | phong
  | wireframe
  deriving DecidableEq

/-- The mesh data consumed by `_rasterize_triangles`. -/
structure MeshQ where
  faces : List (ℕ × ℕ × ℕ)
  vcols : List (ℚ × ℚ × ℚ)
  material : Material

/-- The per-triangle shading computation of renderer.py:401-430
(`face_normal.norm()`, `_calculate_flat_color` / `_calculate_phong_color`)
involves floating-point square roots, so it is abstracted as an opaque
parameter receiving exactly the data the source computes for it: the
average vertex color, the un-normalized face normal
`(v1-v0) × (v2-v0)`, the triangle centroid, and the front-face flag.
Every rasterizer theorem below holds for all such shading functions, since
the claims are independent of the color value written. -/
def ShadeFn := (ℚ × ℚ × ℚ) → Vec3Q → Vec3Q → Bool → Color3

/-- The body of the inner pixel loop of `_rasterize_triangles`
(renderer.py:451-465): the same-sign inside test on the three edge
weights, the barycentric depth interpolation
`z = (w0·inv_area)·z0 + (w1·inv_area)·z1 + (w2·inv_area)·z2`, and the
depth-test-then-write. -/
def fillPixel (rgba : Color4) (z0v z1v z2v inv_area : ℚ) (w0 w1 w2 : ℤ) (baseIdx : ℤ)
    (bufs : Buffers) : Option Buffers :=
  if (0 ≤ w0 ∧ 0 ≤ w1 ∧ 0 ≤ w2) ∨ (w0 ≤ 0 ∧ w1 ≤ 0 ∧ w2 ≤ 0) then
    let z := (w0 : ℚ) * inv_area * z0v + (w1 : ℚ) * inv_area * z1v +
      (w2 : ℚ) * inv_area * z2v
    do
      let d ← pyGet bufs.depth baseIdx
      if dltB z d then do
        let db ← pySet bufs.depth baseIdx (some z)
        let cb ← pySet bufs.color baseIdx rgba
        pure (Buffers.mk cb db)
      else pure bufs
  else pure bufs

/-- The inner `for px in range(min_x, max_x+1)` loop of
`_rasterize_triangles` (renderer.py:450-471): run `fillPixel`, then
increment the weights by the `A` deltas and the buffer index by one. -/
def fillRow (rgba : Color4) (z0v z1v z2v inv_area : ℚ) (A0 A1 A2 : ℤ) :
    ℕ → ℤ → ℤ → ℤ → ℤ → Buffers → Option Buffers
  | 0, _, _, _, _, bufs => some bufs
  | cnt + 1, w0, w1, w2, baseIdx, bufs => do
    let bufs2 ← fillPixel rgba z0v z1v z2v inv_area w0 w1 w2 baseIdx bufs
    fillRow rgba z0v z1v z2v inv_area A0 A1 A2 cnt (w0 + A0) (w1 + A1) (w2 + A2)
      (baseIdx + 1) bufs2

/-- The outer `for py in range(min_y, max_y+1)` loop of
`_rasterize_triangles` (renderer.py:446-476): per-row base index and
row-weight increments. -/
def fillBox (pw : ℤ) (rgba : Color4) (z0v z1v z2v inv_area : ℚ)
    (A0 A1 A2 B0 B1 B2 min_x : ℤ) (width : ℕ) :
    ℕ → ℤ → ℤ → ℤ → ℤ → Buffers → Option Buffers
  | 0, _, _, _, _, bufs => some bufs
  | rows + 1, py, w0r, w1r, w2r, bufs => do
    let bufs2 ← fillRow rgba z0v z1v z2v inv_area A0 A1 A2 width w0r w1r w2r
      (py * pw + min_x) bufs
    fillBox pw rgba z0v z1v z2v inv_area A0 A1 A2 B0 B1 B2 min_x width rows (py + 1)
      (w0r + B0) (w1r + B1) (w2r + B2) bufs2

/-- One iteration of the `for i0, i1, i2 in mesh.faces` loop of
`_rasterize_triangles` (renderer.py:372-476) on the flat/phong path:
read the projected vertices, reject triangles with an invalid
(`z = inf`) vertex, reject zero-area triangles, clamp the bounding box and
reject it when empty, compute the shading inputs, then fill the box. -/
def processFace (shade : ShadeFn) (pw ph : ℤ) (tverts : List Vec3Q) (pverts : List PVert)
    (vcols : List (ℚ × ℚ × ℚ)) (bufs : Buffers) (face : ℕ × ℕ × ℕ) : Option Buffers := do
  let (x0, y0, oz0) ← pverts.get? face.1
  let (x1, y1, oz1) ← pverts.get? face.2.1
  let (x2, y2, oz2) ← pverts.get? face.2.2
  match oz0, oz1, oz2 with
  | some z0v, some z1v, some z2v => do
    let area := (x1 - x0) * (y2 - y0) - (y1 - y0) * (x2 - x0)
    if area = 0 then pure bufs
    else
      let inv_area : ℚ := 1 / (area : ℚ)
      let min_x := max 0 (min x0 (min x1 x2))
      let max_x := min (pw - 1) (max x0 (max x1 x2))
      let min_y := max 0 (min y0 (min y1 y2))
      let max_y := min (ph - 1) (max y0 (max y1 y2))
      if min_x > max_x ∨ min_y > max_y then pure bufs
      else do
        let v0 ← tverts.get? face.1
        let v1 ← tverts.get? face.2.1
        let v2 ← tverts.get? face.2.2
        let c0 ← vcols.get? face.1
        let c1 ← vcols.get? face.2.1
        let c2 ← vcols.get? face.2.2
        let avg_color := ((c0.1 + c1.1 + c2.1) / 3, (c0.2.1 + c1.2.1 + c2.2.1) / 3,
          (c0.2.2 + c1.2.2 + c2.2.2) / 3)
        let face_normal_raw := (v1.sub v0).cross (v2.sub v0)
        let is_front := decide (0 < area)
        let tri_center := ((v0.add v1).add v2).smul (1 / 3)
        let fc := shade avg_color face_normal_raw tri_center is_front
        let rgba : Color4 := (fc.1, fc.2.1, fc.2.2, 1)
        let e0 := edgeCoeffs x1 y1 x2 y2
        let e1 := edgeCoeffs x2 y2 x0 y0
        let e2 := edgeCoeffs x0 y0 x1 y1
        let w0_row := e0.1 * min_x + e0.2.1 * min_y + e0.2.2
        let w1_row := e1.1 * min_x + e1.2.1 * min_y + e1.2.2
        let w2_row := e2.1 * min_x + e2.2.1 * min_y + e2.2.2
        fillBox pw rgba z0v z1v z2v inv_area e0.1 e1.1 e2.1 e0.2.1 e1.2.1 e2.2.1 min_x
          (max_x + 1 - min_x).toNat (max_y + 1 - min_y).toNat min_y w0_row w1_row w2_row bufs
  | _, _, _ => pure bufs

/-- The guarded pixel write of `_draw_wireframe` (renderer.py:344-348):
bounds check, then depth-test-then-write. -/
def drawPixel (pw ph : ℤ) (color : Color3) (z : Option ℚ) (x y : ℤ) (bufs : Buffers) :
    Option Buffers :=
  if 0 ≤ x ∧ x < pw ∧ 0 ≤ y ∧ y < ph then do
    let idx := y * pw + x
    let d ← pyGet bufs.depth idx
    if wltB z d then do
      let db ← pySet bufs.depth idx z
      let cb ← pySet bufs.color idx (color.1, color.2.1, color.2.2, 1)
      pure (Buffers.mk cb db)
    else pure bufs
  else pure bufs

/-- The per-step depth interpolation `z = z0*(1-t) + z1*t` of
`_draw_wireframe` (renderer.py:342-343).  When an endpoint depth is `inf`
the float interpolation produces `inf` or `NaN`, both of which fail the
`z < depth` test at every pixel; this is modelled by a `none` result,
which `wltB` never lets pass. -/
def interpZ (z0 z1 : Option ℚ) (t : ℚ) : Option ℚ :=
  match z0, z1 with
  | some a, some b => some (a * (1 - t) + b * t)
  | _, _ => none

/-- The Bresenham loop of `_draw_wireframe` (renderer.py:333-357). -/
def lineLoop (pw ph : ℤ) (color : Color3) (z0 z1 : Option ℚ) (x1 y1 dx dy sx sy steps : ℤ) :
    ℕ → ℤ → ℤ → ℤ → ℤ → Buffers → Option Buffers
  | 0, _, _, _, _, bufs => some bufs
  | fuel + 1, i, x, y, err, bufs => do
    let t : ℚ := if 0 < steps then (i : ℚ) / (steps : ℚ) else 0
    let z : Option ℚ := interpZ z0 z1 t
    let bufs2 ← drawPixel pw ph color z x y bufs
    if x = x1 ∧ y = y1 then pure bufs2
    else
      let e2 := 2 * err
      let p1 : ℤ × ℤ := if e2 > -dy then (err - dy, x + sx) else (err, x)
      let p2 : ℤ × ℤ := if e2 < dx then (p1.1 + dx, y + sy) else (p1.1, y)
      lineLoop pw ph color z0 z1 x1 y1 dx dy sx sy steps fuel (i + 1) p1.2 p2.2 p2.1 bufs2

/-- One edge of `_draw_wireframe` (renderer.py:331-341): Bresenham setup. -/
def drawLine (pw ph : ℤ) (color : Color3) (p0 p1v : PVert) (bufs : Buffers) :
    Option Buffers :=
  let dx := |p1v.1 - p0.1|
  let dy := |p1v.2.1 - p0.2.1|
  let sx : ℤ := if p0.1 < p1v.1 then 1 else -1
  let sy : ℤ := if p0.2.1 < p1v.2.1 then 1 else -1
  let err := dx - dy
  let steps : ℤ := if 0 < max dx dy then max dx dy else 1
  lineLoop pw ph color p0.2.2 p1v.2.2 p1v.1 p1v.2.1 dx dy sx sy steps
    (steps + 1).toNat 0 p0.1 p0.2.1 err bufs

/-- `_draw_wireframe` (renderer.py:324-357): draw the three edges of every
face. -/
def drawWireframe (pw ph : ℤ) (faces : List (ℕ × ℕ × ℕ)) (pverts : List PVert)
    (color : Color3) (bufs : Buffers) : Option Buffers :=
  faces.foldlM (fun bufs f => do
    let bufs1 ← do
      let pa ← pverts.get? f.1
      let pb ← pverts.get? f.2.1
      drawLine pw ph color pa pb bufs
    let bufs2 ← do
      let pb ← pverts.get? f.2.1
      let pc ← pverts.get? f.2.2
      drawLine pw ph color pb pc bufs1
    let pc ← pverts.get? f.2.2
    let pa ← pverts.get? f.1
    drawLine pw ph color pc pa bufs2) bufs

/-- `_rasterize_triangles` (renderer.py:359-476): wireframe meshes go to
`_draw_wireframe` (with the default color `(255,255,255)`), flat/phong
meshes iterate `processFace` over the faces. -/
def rasterizeTriangles (shade : ShadeFn) (pw ph : ℤ) (mesh : MeshQ) (tverts : List Vec3Q)
    (pverts : List PVert) (bufs : Buffers) : Option Buffers :=
  match mesh.material with
  | .wireframe => drawWireframe pw ph mesh.faces pverts (255, 255, 255) bufs
  | _ => mesh.faces.foldlM (fun b f => processFace shade pw ph tverts pverts mesh.vcols b f) bufs

/-! ## Per-pixel characterization of the rasterizer

These spec-side helpers describe the effect of the loops above on a single
buffer entry; they are what the depth-test claims are stated against. -/

/-- The (color, depth) entry pair at flat index `j` (default-padded). -/
def entryAt (b : Buffers) (j : ℕ) : Color4 × Option ℚ :=
  (b.color.getD j (0, 0, 0, 0), b.depth.getD j none)

/-- The depth-tested write: update the entry only when the incoming finite
depth is strictly below the stored depth. -/
def pixelWrite (rgba : Color4) (z : ℚ) (cd : Color4 × Option ℚ) : Color4 × Option ℚ :=
  if dltB z cd.2 then (rgba, some z) else cd

/-- The effect of one pixel-loop iteration (`fillPixel`) on the entry it
addresses, as a pure function of that entry. -/
def rowStep (rgba : Color4) (z0v z1v z2v inv_area : ℚ) (w0 w1 w2 : ℤ)
    (cd : Color4 × Option ℚ) : Color4 × Option ℚ :=
  if (0 ≤ w0 ∧ 0 ≤ w1 ∧ 0 ≤ w2) ∨ (w0 ≤ 0 ∧ w1 ≤ 0 ∧ w2 ≤ 0) then
    pixelWrite rgba ((w0 : ℚ) * inv_area * z0v + (w1 : ℚ) * inv_area * z1v +
      (w2 : ℚ) * inv_area * z2v) cd
  else cd

@[simp] theorem entryAt_fst (b : Buffers) (j : ℕ) :
    (entryAt b j).1 = b.color.getD j (0, 0, 0, 0) := rfl

@[simp] theorem entryAt_snd (b : Buffers) (j : ℕ) :
    (entryAt b j).2 = b.depth.getD j none := rfl

theorem optBind_some (a : α) (f : α → Option β) : (some a : Option α) >>= f = f a := rfl

theorem get?_eq_some_getD (l : List α) (n : ℕ) (d : α) (h : n < l.length) :
    l.get? n = some (l.getD n d) := by
  rw [List.get?_eq_getElem?, List.getD_eq_getElem?_getD, List.getElem?_eq_getElem h]
  rfl

theorem getD_set_self (l : List α) (i : ℕ) (a d : α) (h : i < l.length) :
    (l.set i a).getD i d = a := by
  rw [List.getD_eq_getElem?_getD, List.getElem?_set_self]
  · simp [h]
  · exact h

theorem getD_set_other (l : List α) {i j : ℕ} (a d : α) (h : i ≠ j) :
    (l.set i a).getD j d = l.getD j d := by
  rw [List.getD_eq_getElem?_getD, List.getD_eq_getElem?_getD, List.getElem?_set_ne h]

theorem pyGet_nonneg (l : List α) (i : ℤ) (h0 : 0 ≤ i) : pyGet l i = l.get? i.toNat := by
  simp [pyGet, h0]

theorem pySet_nonneg (l : List α) (i : ℤ) (a : α) (h0 : 0 ≤ i) (h : i.toNat < l.length) :
    pySet l i a = some (l.set i.toNat a) := by
  simp [pySet, h0, h]

/-- `fillPixel` always succeeds on an in-range index and acts on exactly
that entry, as `rowStep`. -/
theorem fillPixel_char (rgba : Color4) (z0v z1v z2v inv_area : ℚ) (w0 w1 w2 : ℤ)
    (base : ℤ) (bufs : Buffers) (N : ℕ)
    (hcl : bufs.color.length = N) (hdl : bufs.depth.length = N)
    (hb : 0 ≤ base) (hlt : base < (N : ℤ)) :
    ∃ b2, fillPixel rgba z0v z1v z2v inv_area w0 w1 w2 base bufs = some b2 ∧
      b2.color.length = N ∧ b2.depth.length = N ∧
      ∀ j : ℕ, entryAt b2 j =
        if (j : ℤ) = base then
          rowStep rgba z0v z1v z2v inv_area w0 w1 w2 (entryAt bufs j)
        else entryAt bufs j := by
  have hbN : base.toNat < N := by omega
  by_cases hin : (0 ≤ w0 ∧ 0 ≤ w1 ∧ 0 ≤ w2) ∨ (w0 ≤ 0 ∧ w1 ≤ 0 ∧ w2 ≤ 0)
  · have hdepth : pyGet bufs.depth base = some (bufs.depth.getD base.toNat none) := by
      rw [pyGet_nonneg _ _ hb]
      exact get?_eq_some_getD _ _ _ (by rw [hdl]; exact hbN)
    by_cases hzd : dltB ((w0 : ℚ) * inv_area * z0v + (w1 : ℚ) * inv_area * z1v +
        (w2 : ℚ) * inv_area * z2v) (bufs.depth.getD base.toNat none)
    · have hsetd : pySet bufs.depth base (some ((w0 : ℚ) * inv_area * z0v +
          (w1 : ℚ) * inv_area * z1v + (w2 : ℚ) * inv_area * z2v)) =
          some (bufs.depth.set base.toNat (some ((w0 : ℚ) * inv_area * z0v +
            (w1 : ℚ) * inv_area * z1v + (w2 : ℚ) * inv_area * z2v))) :=
        pySet_nonneg _ _ _ hb (by rw [hdl]; exact hbN)
      have hsetc : pySet bufs.color base rgba = some (bufs.color.set base.toNat rgba) :=
        pySet_nonneg _ _ _ hb (by rw [hcl]; exact hbN)
      refine ⟨⟨bufs.color.set base.toNat rgba,
        bufs.depth.set base.toNat (some ((w0 : ℚ) * inv_area * z0v +
          (w1 : ℚ) * inv_area * z1v + (w2 : ℚ) * inv_area * z2v))⟩, ?_, ?_, ?_, ?_⟩
      · simp only [fillPixel]
        rw [if_pos hin, hdepth]
        simp only [optBind_some]
        rw [if_pos hzd, hsetd]
        simp only [optBind_some]
        rw [hsetc]
        simp only [optBind_some]
        rfl
      · simpa [List.length_set] using hcl
      · simpa [List.length_set] using hdl
      · intro j
        by_cases hj : (j : ℤ) = base
        · have hjn : j = base.toNat := by omega
          subst hjn
          rw [if_pos hj]
          have hrs : rowStep rgba z0v z1v z2v inv_area w0 w1 w2 (entryAt bufs base.toNat) =
              (rgba, some ((w0 : ℚ) * inv_area * z0v + (w1 : ℚ) * inv_area * z1v +
                (w2 : ℚ) * inv_area * z2v)) := by
            unfold rowStep pixelWrite
            rw [if_pos hin, entryAt_snd, if_pos hzd]
          rw [hrs]
          unfold entryAt
          rw [getD_set_self _ _ _ _ (by rw [hcl]; exact hbN),
            getD_set_self _ _ _ _ (by rw [hdl]; exact hbN)]
        · have hjn : base.toNat ≠ j := by omega
          rw [if_neg hj]
          unfold entryAt
          rw [getD_set_other _ _ _ hjn, getD_set_other _ _ _ hjn]
    · refine ⟨bufs, ?_, hcl, hdl, ?_⟩
      · simp only [fillPixel]
        rw [if_pos hin, hdepth]
        simp only [optBind_some]
        rw [if_neg hzd]
        rfl
      · intro j
        by_cases hj : (j : ℤ) = base
        · have hjn : j = base.toNat := by omega
          subst hjn
          rw [if_pos hj]
          have hrs : rowStep rgba z0v z1v z2v inv_area w0 w1 w2 (entryAt bufs base.toNat) =
              entryAt bufs base.toNat := by
            unfold rowStep pixelWrite
            rw [if_pos hin, entryAt_snd, if_neg hzd]
          rw [hrs]
        · rw [if_neg hj]
  · refine ⟨bufs, ?_, hcl, hdl, ?_⟩
    · simp only [fillPixel]
      rw [if_neg hin]
      rfl
    · intro j
      by_cases hj : (j : ℤ) = base
      · rw [if_pos hj]
        unfold rowStep
        rw [if_neg hin]
      · rw [if_neg hj]

/-- `fillRow` succeeds when its index window fits in the buffers, and acts
on entry `j` of the window as `rowStep` with the weights advanced by the
per-column deltas. -/
theorem fillRow_char (rgba : Color4) (z0v z1v z2v inv_area : ℚ) (A0 A1 A2 : ℤ) (N : ℕ) :
    ∀ (cnt : ℕ) (w0 w1 w2 base : ℤ) (bufs : Buffers),
      bufs.color.length = N → bufs.depth.length = N → 0 ≤ base → base + cnt ≤ (N : ℤ) →
      ∃ b2, fillRow rgba z0v z1v z2v inv_area A0 A1 A2 cnt w0 w1 w2 base bufs = some b2 ∧
        b2.color.length = N ∧ b2.depth.length = N ∧
        ∀ j : ℕ, entryAt b2 j =
          if base ≤ (j : ℤ) ∧ (j : ℤ) < base + cnt then
            rowStep rgba z0v z1v z2v inv_area (w0 + ((j : ℤ) - base) * A0)
              (w1 + ((j : ℤ) - base) * A1) (w2 + ((j : ℤ) - base) * A2) (entryAt bufs j)
          else entryAt bufs j := by
  intro cnt
  induction cnt with
  | zero =>
    intro w0 w1 w2 base bufs hcl hdl hb hend
    refine ⟨bufs, rfl, hcl, hdl, fun j => ?_⟩
    rw [if_neg (by omega)]
  | succ cnt ih =>
    intro w0 w1 w2 base bufs hcl hdl hb hend
    obtain ⟨b1, hb1, hcl1, hdl1, hch1⟩ :=
      fillPixel_char rgba z0v z1v z2v inv_area w0 w1 w2 base bufs N hcl hdl hb (by omega)
    obtain ⟨b2, hb2, hcl2, hdl2, hch2⟩ :=
      ih (w0 + A0) (w1 + A1) (w2 + A2) (base + 1) b1 hcl1 hdl1 (by omega) (by omega)
    refine ⟨b2, ?_, hcl2, hdl2, fun j => ?_⟩
    · simp only [fillRow]
      rw [hb1]
      simp only [optBind_some]
      exact hb2
    · rw [hch2 j, hch1 j]
      split_ifs with h1 h2 h3 h4 h5 h6 <;>
        first
          | rfl
          | (exfalso; omega)
          | (have e0 : w0 + A0 + ((j : ℤ) - (base + 1)) * A0 = w0 + ((j : ℤ) - base) * A0 := by
               ring
             have e1 : w1 + A1 + ((j : ℤ) - (base + 1)) * A1 = w1 + ((j : ℤ) - base) * A1 := by
               ring
             have e2 : w2 + A2 + ((j : ℤ) - (base + 1)) * A2 = w2 + ((j : ℤ) - base) * A2 := by
               ring
             rw [e0, e1, e2])
          | (have hj : (j : ℤ) = base := by omega
             rw [hj]
             norm_num)

/-- Uniqueness of the row/column decomposition of a flat buffer index. -/
theorem rowcol_unique {pw py1 px1 py2 px2 : ℤ} (hx1 : 0 ≤ px1) (hx1w : px1 < pw)
    (hx2 : 0 ≤ px2) (hx2w : px2 < pw) (h : py1 * pw + px1 = py2 * pw + px2) :
    py1 = py2 ∧ px1 = px2 := by
  have hpw : 0 < pw := lt_of_le_of_lt hx1 hx1w
  have hpy : py1 = py2 := by
    rcases lt_trichotomy py1 py2 with hlt | heq | hgt
    · exfalso
      have h1 : py2 - py1 ≥ 1 := by omega
      nlinarith
    · exact heq
    · exfalso
      have h1 : py1 - py2 ≥ 1 := by omega
      nlinarith
  refine ⟨hpy, ?_⟩
  rw [hpy] at h
  omega

/-- `fillBox` succeeds when its clamped box fits in a `pw × ph` buffer pair
and acts as `rowStep` on exactly the entries of the box (weights advanced by
the per-row `B` and per-column `A` deltas), leaving all other entries
unchanged. -/
theorem fillBox_char (pw : ℤ) (rgba : Color4) (z0v z1v z2v inv_area : ℚ)
    (A0 A1 A2 B0 B1 B2 min_x : ℤ) (width : ℕ) (ph : ℤ) (N : ℕ)
    (hN : (N : ℤ) = pw * ph) (hmx : 0 ≤ min_x) (hwd : min_x + width ≤ pw) :
    ∀ (rows : ℕ) (py0 w0r w1r w2r : ℤ) (bufs : Buffers),
      bufs.color.length = N → bufs.depth.length = N → 0 ≤ py0 → py0 + rows ≤ ph →
      ∃ b2, fillBox pw rgba z0v z1v z2v inv_area A0 A1 A2 B0 B1 B2 min_x width rows py0
          w0r w1r w2r bufs = some b2 ∧
        b2.color.length = N ∧ b2.depth.length = N ∧
        (∀ px py : ℤ, min_x ≤ px → px < min_x + width → py0 ≤ py → py < py0 + rows →
          entryAt b2 (py * pw + px).toNat =
            rowStep rgba z0v z1v z2v inv_area
              (w0r + (py - py0) * B0 + (px - min_x) * A0)
              (w1r + (py - py0) * B1 + (px - min_x) * A1)
              (w2r + (py - py0) * B2 + (px - min_x) * A2)
              (entryAt bufs (py * pw + px).toNat)) ∧
        (∀ j : ℕ, (∀ px py : ℤ, min_x ≤ px → px < min_x + width → py0 ≤ py →
            py < py0 + rows → (j : ℤ) ≠ py * pw + px) →
          entryAt b2 j = entryAt bufs j) := by
  intro rows
  induction rows with
  | zero =>
    intro py0 w0r w1r w2r bufs hcl hdl hp0 hpe
    exact ⟨bufs, rfl, hcl, hdl, fun px py _ _ _ h => by omega, fun j _ => rfl⟩
  | succ rows ih =>
    intro py0 w0r w1r w2r bufs hcl hdl hp0 hpe
    have hpw : 0 ≤ pw := by omega
    have hbase0 : 0 ≤ py0 * pw + min_x := by
      have h5 := mul_nonneg hp0 hpw
      omega
    have hbasee : py0 * pw + min_x + width ≤ (N : ℤ) := by
      have h1 : py0 * pw + min_x + width ≤ py0 * pw + pw := by omega
      have h2 : py0 * pw + pw = (py0 + 1) * pw := by ring
      have h3 : (py0 + 1) * pw ≤ ph * pw := by
        apply mul_le_mul_of_nonneg_right _ hpw
        omega
      have h4 : ph * pw = pw * ph := by ring
      rw [hN]
      omega
    obtain ⟨b1, hb1, hcl1, hdl1, hch1⟩ :=
      fillRow_char rgba z0v z1v z2v inv_area A0 A1 A2 N width w0r w1r w2r
        (py0 * pw + min_x) bufs hcl hdl hbase0 hbasee
    obtain ⟨b2, hb2, hcl2, hdl2, hcha2, hchb2⟩ :=
      ih (py0 + 1) (w0r + B0) (w1r + B1) (w2r + B2) b1 hcl1 hdl1 (by omega) (by omega)
    have hrow_of_idx : ∀ px py : ℤ, min_x ≤ px → px < min_x + width → 0 ≤ py →
        ((py * pw + px).toNat : ℤ) = py * pw + px := by
      intro px py hx1 hx2 hy
      have h5 := mul_nonneg hy hpw
      omega
    refine ⟨b2, ?_, hcl2, hdl2, ?_, ?_⟩
    · simp only [fillBox]
      rw [hb1]
      simp only [optBind_some]
      exact hb2
    · intro px py hx1 hx2 hy1 hy2
      have hidx : ((py * pw + px).toNat : ℤ) = py * pw + px :=
        hrow_of_idx px py hx1 hx2 (by omega)
      by_cases hrow : py = py0
      · -- this row: written by fillRow, untouched by the recursion
        subst hrow
        have hnotrec : ∀ px2 py2 : ℤ, min_x ≤ px2 → px2 < min_x + width → py + 1 ≤ py2 →
            py2 < py + 1 + rows → (((py * pw + px).toNat : ℤ)) ≠ py2 * pw + px2 := by
          intro px2 py2 ha hb hc hd heq
          rw [hidx] at heq
          obtain ⟨hpy, -⟩ := rowcol_unique (by omega) (by omega) (by omega) (by omega) heq
          omega
        rw [hchb2 _ hnotrec, hch1]
        rw [if_pos ⟨by rw [hidx]; omega, by rw [hidx]; omega⟩]
        have e0 : w0r + (((py * pw + px).toNat : ℤ) - (py * pw + min_x)) * A0 =
            w0r + (py - py) * B0 + (px - min_x) * A0 := by
          rw [hidx]; ring
        have e1 : w1r + (((py * pw + px).toNat : ℤ) - (py * pw + min_x)) * A1 =
            w1r + (py - py) * B1 + (px - min_x) * A1 := by
          rw [hidx]; ring
        have e2 : w2r + (((py * pw + px).toNat : ℤ) - (py * pw + min_x)) * A2 =
            w2r + (py - py) * B2 + (px - min_x) * A2 := by
          rw [hidx]; ring
        rw [e0, e1, e2]
      · -- a later row: untouched by fillRow, written by the recursion
        have hnotrow : ¬ (py0 * pw + min_x ≤ (((py * pw + px).toNat : ℤ)) ∧
            (((py * pw + px).toNat : ℤ)) < py0 * pw + min_x + width) := by
          rw [hidx]
          intro ⟨ha, hb⟩
          have h1 : (py - py0 - 1) * pw ≥ 0 := by
            apply mul_nonneg _ hpw
            omega
          nlinarith
        have ha2 := hcha2 px py hx1 hx2 (by omega) (by omega)
        rw [ha2, hch1 _, if_neg hnotrow]
        have e0 : w0r + B0 + (py - (py0 + 1)) * B0 + (px - min_x) * A0 =
            w0r + (py - py0) * B0 + (px - min_x) * A0 := by ring
        have e1 : w1r + B1 + (py - (py0 + 1)) * B1 + (px - min_x) * A1 =
            w1r + (py - py0) * B1 + (px - min_x) * A1 := by ring
        have e2 : w2r + B2 + (py - (py0 + 1)) * B2 + (px - min_x) * A2 =
            w2r + (py - py0) * B2 + (px - min_x) * A2 := by ring
        rw [e0, e1, e2]
    · intro j hj
      have hjrec : ∀ px py : ℤ, min_x ≤ px → px < min_x + width → py0 + 1 ≤ py →
          py < py0 + 1 + rows → (j : ℤ) ≠ py * pw + px := by
        intro px py ha hb hc hd
        exact hj px py ha hb (by omega) (by omega)
      rw [hchb2 _ hjrec, hch1 j]
      rw [if_neg ?_]
      intro ⟨ha, hb⟩
      have hx1 : min_x ≤ (j : ℤ) - py0 * pw := by omega
      have hx2 : (j : ℤ) - py0 * pw < min_x + width := by omega
      exact hj ((j : ℤ) - py0 * pw) py0 hx1 hx2 (le_refl _) (by omega) (by omega)

/-- The effect of one face of `_rasterize_triangles` on the buffer entry at
pixel `(px, py)`, as a pure function of that entry: the same reads, skip
conditions, clamped bounding box and shading inputs as `processFace`, with
the incremental weights replaced by their closed form
`w = A·px + B·py + C`. -/
def faceStep (shade : ShadeFn) (tverts : List Vec3Q) (pverts : List PVert)
    (vcols : List (ℚ × ℚ × ℚ)) (face : ℕ × ℕ × ℕ) (pw ph px py : ℤ)
    (cd : Color4 × Option ℚ) : Color4 × Option ℚ :=
  match pverts.get? face.1, pverts.get? face.2.1, pverts.get? face.2.2,
      tverts.get? face.1, tverts.get? face.2.1, tverts.get? face.2.2,
      vcols.get? face.1, vcols.get? face.2.1, vcols.get? face.2.2 with
  | some (x0, y0, some z0v), some (x1, y1, some z1v), some (x2, y2, some z2v),
    some v0, some v1, some v2, some c0, some c1, some c2 =>
    let area := (x1 - x0) * (y2 - y0) - (y1 - y0) * (x2 - x0)
    if area = 0 then cd
    else
      let inv_area : ℚ := 1 / (area : ℚ)
      let min_x := max 0 (min x0 (min x1 x2))
      let max_x := min (pw - 1) (max x0 (max x1 x2))
      let min_y := max 0 (min y0 (min y1 y2))
      let max_y := min (ph - 1) (max y0 (max y1 y2))
      if min_x > max_x ∨ min_y > max_y then cd
      else if min_x ≤ px ∧ px ≤ max_x ∧ min_y ≤ py ∧ py ≤ max_y then
        let avg_color := ((c0.1 + c1.1 + c2.1) / 3, (c0.2.1 + c1.2.1 + c2.2.1) / 3,
          (c0.2.2 + c1.2.2 + c2.2.2) / 3)
        let face_normal_raw := (v1.sub v0).cross (v2.sub v0)
        let is_front := decide (0 < area)
        let tri_center := ((v0.add v1).add v2).smul (1 / 3)
        let fc := shade avg_color face_normal_raw tri_center is_front
        let rgba : Color4 := (fc.1, fc.2.1, fc.2.2, 1)
        let e0 := edgeCoeffs x1 y1 x2 y2
        let e1 := edgeCoeffs x2 y2 x0 y0
        let e2 := edgeCoeffs x0 y0 x1 y1
        rowStep rgba z0v z1v z2v inv_area
          (e0.1 * px + e0.2.1 * py + e0.2.2)
          (e1.1 * px + e1.2.1 * py + e1.2.2)
          (e2.1 * px + e2.2.1 * py + e2.2.2) cd
      else cd
  | _, _, _, _, _, _, _, _, _ => cd

/-- `processFace` succeeds on well-formed inputs and acts on the entry of
every in-viewport pixel exactly as `faceStep`. -/
theorem processFace_char (shade : ShadeFn) (pw ph : ℤ) (tverts : List Vec3Q)
    (pverts : List PVert) (vcols : List (ℚ × ℚ × ℚ)) (face : ℕ × ℕ × ℕ)
    (bufs : Buffers) (N : ℕ) (hN : (N : ℤ) = pw * ph)
    (hcl : bufs.color.length = N) (hdl : bufs.depth.length = N)
    (hf0 : face.1 < pverts.length) (hf1 : face.2.1 < pverts.length)
    (hf2 : face.2.2 < pverts.length)
    (htl : tverts.length = pverts.length) (hvl : vcols.length = pverts.length) :
    ∃ b2, processFace shade pw ph tverts pverts vcols bufs face = some b2 ∧
      b2.color.length = N ∧ b2.depth.length = N ∧
      ∀ px py : ℤ, 0 ≤ px → px < pw → 0 ≤ py → py < ph →
        entryAt b2 (py * pw + px).toNat =
          faceStep shade tverts pverts vcols face pw ph px py
            (entryAt bufs (py * pw + px).toNat) := by
  obtain ⟨p0, hp0⟩ : ∃ v, pverts.get? face.1 = some v :=
    ⟨_, by rw [List.get?_eq_getElem?, List.getElem?_eq_getElem hf0]⟩
  obtain ⟨p1, hp1⟩ : ∃ v, pverts.get? face.2.1 = some v :=
    ⟨_, by rw [List.get?_eq_getElem?, List.getElem?_eq_getElem hf1]⟩
  obtain ⟨p2, hp2⟩ : ∃ v, pverts.get? face.2.2 = some v :=
    ⟨_, by rw [List.get?_eq_getElem?, List.getElem?_eq_getElem hf2]⟩
  obtain ⟨v0, hv0⟩ : ∃ v, tverts.get? face.1 = some v :=
    ⟨_, by rw [List.get?_eq_getElem?, List.getElem?_eq_getElem (htl ▸ hf0)]⟩
  obtain ⟨v1, hv1⟩ : ∃ v, tverts.get? face.2.1 = some v :=
    ⟨_, by rw [List.get?_eq_getElem?, List.getElem?_eq_getElem (htl ▸ hf1)]⟩
  obtain ⟨v2, hv2⟩ : ∃ v, tverts.get? face.2.2 = some v :=
    ⟨_, by rw [List.get?_eq_getElem?, List.getElem?_eq_getElem (htl ▸ hf2)]⟩
  obtain ⟨c0, hc0⟩ : ∃ v, vcols.get? face.1 = some v :=
    ⟨_, by rw [List.get?_eq_getElem?, List.getElem?_eq_getElem (hvl ▸ hf0)]⟩
  obtain ⟨c1, hc1⟩ : ∃ v, vcols.get? face.2.1 = some v :=
    ⟨_, by rw [List.get?_eq_getElem?, List.getElem?_eq_getElem (hvl ▸ hf1)]⟩
  obtain ⟨c2, hc2⟩ : ∃ v, vcols.get? face.2.2 = some v :=
    ⟨_, by rw [List.get?_eq_getElem?, List.getElem?_eq_getElem (hvl ▸ hf2)]⟩
  obtain ⟨x0, y0, oz0⟩ := p0
  obtain ⟨x1, y1, oz1⟩ := p1
  obtain ⟨x2, y2, oz2⟩ := p2
  rcases oz0 with _ | z0v <;> rcases oz1 with _ | z1v <;> rcases oz2 with _ | z2v
  case some.some.some =>
    by_cases harea : (x1 - x0) * (y2 - y0) - (y1 - y0) * (x2 - x0) = 0
    · refine ⟨bufs, ?_, hcl, hdl, fun px py _ _ _ _ => ?_⟩
      · simp only [processFace, hp0, hp1, hp2, optBind_some]
        rw [if_pos harea]
        rfl
      · simp only [faceStep, hp0, hp1, hp2, hv0, hv1, hv2, hc0, hc1, hc2]
        rw [if_pos harea]
    · by_cases hbox : max 0 (min x0 (min x1 x2)) > min (pw - 1) (max x0 (max x1 x2)) ∨
          max 0 (min y0 (min y1 y2)) > min (ph - 1) (max y0 (max y1 y2))
      · refine ⟨bufs, ?_, hcl, hdl, fun px py _ _ _ _ => ?_⟩
        · simp only [processFace, hp0, hp1, hp2, optBind_some]
          rw [if_neg harea, if_pos hbox]
          rfl
        · simp only [faceStep, hp0, hp1, hp2, hv0, hv1, hv2, hc0, hc1, hc2]
          rw [if_neg harea, if_pos hbox]
      · have hbox2 := hbox
        push_neg at hbox2
        obtain ⟨hbx, hby⟩ := hbox2
        have hmx0 : (0 : ℤ) ≤ max 0 (min x0 (min x1 x2)) := le_max_left _ _
        have hmy0 : (0 : ℤ) ≤ max 0 (min y0 (min y1 y2)) := le_max_left _ _
        have hmxw : min (pw - 1) (max x0 (max x1 x2)) ≤ pw - 1 := min_le_left _ _
        have hmyh : min (ph - 1) (max y0 (max y1 y2)) ≤ ph - 1 := min_le_left _ _
        have hwcast : (((min (pw - 1) (max x0 (max x1 x2)) + 1 -
            max 0 (min x0 (min x1 x2))).toNat : ℤ)) =
            min (pw - 1) (max x0 (max x1 x2)) + 1 - max 0 (min x0 (min x1 x2)) := by omega
        have hrcast : (((min (ph - 1) (max y0 (max y1 y2)) + 1 -
            max 0 (min y0 (min y1 y2))).toNat : ℤ)) =
            min (ph - 1) (max y0 (max y1 y2)) + 1 - max 0 (min y0 (min y1 y2)) := by omega
        have hwd : max 0 (min x0 (min x1 x2)) +
            ((min (pw - 1) (max x0 (max x1 x2)) + 1 -
              max 0 (min x0 (min x1 x2))).toNat : ℤ) ≤ pw := by omega
        have hre : max 0 (min y0 (min y1 y2)) +
            ((min (ph - 1) (max y0 (max y1 y2)) + 1 -
              max 0 (min y0 (min y1 y2))).toNat : ℤ) ≤ ph := by omega
        obtain ⟨b2, hb2, hcl2, hdl2, hcha, hchb⟩ :=
          fillBox_char pw
            ((shade ((c0.1 + c1.1 + c2.1) / 3, (c0.2.1 + c1.2.1 + c2.2.1) / 3,
                (c0.2.2 + c1.2.2 + c2.2.2) / 3) ((v1.sub v0).cross (v2.sub v0))
                (((v0.add v1).add v2).smul (1 / 3))
                (decide (0 < (x1 - x0) * (y2 - y0) - (y1 - y0) * (x2 - x0)))).1,
              (shade ((c0.1 + c1.1 + c2.1) / 3, (c0.2.1 + c1.2.1 + c2.2.1) / 3,
                (c0.2.2 + c1.2.2 + c2.2.2) / 3) ((v1.sub v0).cross (v2.sub v0))
                (((v0.add v1).add v2).smul (1 / 3))
                (decide (0 < (x1 - x0) * (y2 - y0) - (y1 - y0) * (x2 - x0)))).2.1,
              (shade ((c0.1 + c1.1 + c2.1) / 3, (c0.2.1 + c1.2.1 + c2.2.1) / 3,
                (c0.2.2 + c1.2.2 + c2.2.2) / 3) ((v1.sub v0).cross (v2.sub v0))
                (((v0.add v1).add v2).smul (1 / 3))
                (decide (0 < (x1 - x0) * (y2 - y0) - (y1 - y0) * (x2 - x0)))).2.2, 1)
            z0v z1v z2v (1 / ((((x1 - x0) * (y2 - y0) - (y1 - y0) * (x2 - x0) : ℤ)) : ℚ))
            (y1 - y2) (y2 - y0) (y0 - y1) (x2 - x1) (x0 - x2) (x1 - x0)
            (max 0 (min x0 (min x1 x2)))
            ((min (pw - 1) (max x0 (max x1 x2)) + 1 - max 0 (min x0 (min x1 x2))).toNat)
            ph N hN hmx0 hwd
            ((min (ph - 1) (max y0 (max y1 y2)) + 1 - max 0 (min y0 (min y1 y2))).toNat)
            (max 0 (min y0 (min y1 y2)))
            ((y1 - y2) * max 0 (min x0 (min x1 x2)) +
              (x2 - x1) * max 0 (min y0 (min y1 y2)) + (x1 * y2 - y1 * x2))
            ((y2 - y0) * max 0 (min x0 (min x1 x2)) +
              (x0 - x2) * max 0 (min y0 (min y1 y2)) + (x2 * y0 - y2 * x0))
            ((y0 - y1) * max 0 (min x0 (min x1 x2)) +
              (x1 - x0) * max 0 (min y0 (min y1 y2)) + (x0 * y1 - y0 * x1))
            bufs hcl hdl hmy0 hre
        refine ⟨b2, ?_, hcl2, hdl2, fun px py hpx0 hpxw hpy0 hpyh => ?_⟩
        · simp only [processFace, hp0, hp1, hp2, hv0, hv1, hv2, hc0, hc1, hc2, optBind_some,
            edgeCoeffs]
          rw [if_neg harea, if_neg hbox]
          exact hb2
        · simp only [faceStep, hp0, hp1, hp2, hv0, hv1, hv2, hc0, hc1, hc2, edgeCoeffs]
          rw [if_neg harea, if_neg hbox]
          by_cases hin : max 0 (min x0 (min x1 x2)) ≤ px ∧
              px ≤ min (pw - 1) (max x0 (max x1 x2)) ∧
              max 0 (min y0 (min y1 y2)) ≤ py ∧ py ≤ min (ph - 1) (max y0 (max y1 y2))
          · rw [if_pos hin]
            have hstep := hcha px py hin.1 (by omega) hin.2.2.1 (by omega)
            rw [hstep]
            have e0 : (y1 - y2) * max 0 (min x0 (min x1 x2)) +
                (x2 - x1) * max 0 (min y0 (min y1 y2)) + (x1 * y2 - y1 * x2) +
                (py - max 0 (min y0 (min y1 y2))) * (x2 - x1) +
                (px - max 0 (min x0 (min x1 x2))) * (y1 - y2) =
                (y1 - y2) * px + (x2 - x1) * py + (x1 * y2 - y1 * x2) := by ring
            have e1 : (y2 - y0) * max 0 (min x0 (min x1 x2)) +
                (x0 - x2) * max 0 (min y0 (min y1 y2)) + (x2 * y0 - y2 * x0) +
                (py - max 0 (min y0 (min y1 y2))) * (x0 - x2) +
                (px - max 0 (min x0 (min x1 x2))) * (y2 - y0) =
                (y2 - y0) * px + (x0 - x2) * py + (x2 * y0 - y2 * x0) := by ring
            have e2 : (y0 - y1) * max 0 (min x0 (min x1 x2)) +
                (x1 - x0) * max 0 (min y0 (min y1 y2)) + (x0 * y1 - y0 * x1) +
                (py - max 0 (min y0 (min y1 y2))) * (x1 - x0) +
                (px - max 0 (min x0 (min x1 x2))) * (y0 - y1) =
                (y0 - y1) * px + (x1 - x0) * py + (x0 * y1 - y0 * x1) := by ring
            rw [e0, e1, e2]
          · rw [if_neg hin]
            apply hchb
            intro px2 py2 ha hb hc hd heq
            have hidx : (((py * pw + px).toNat : ℤ)) = py * pw + px := by
              have h5 := mul_nonneg hpy0 (le_of_lt (lt_of_le_of_lt hpx0 hpxw))
              omega
            rw [hidx] at heq
            obtain ⟨hpyeq, hpxeq⟩ := rowcol_unique hpx0 hpxw (by omega) (by omega) heq
            omega
  all_goals
    refine ⟨bufs, ?_, hcl, hdl, fun px py _ _ _ _ => ?_⟩
  all_goals
    simp only [processFace, faceStep, hp0, hp1, hp2, hv0, hv1, hv2, hc0, hc1, hc2,
      optBind_some]
  all_goals rfl

/-! ## Depth ordering (for the depth-test claims)

`none` stands for `+inf` in the depth buffer. -/

/-- `d2 ≤ d1` on stored depths, `+inf` greatest. -/
def depthLe : Option ℚ → Option ℚ → Prop
  | _, none => True
  | none, some _ => False
  | some a, some b => a ≤ b

/-- `d2 < d1` on stored depths, `+inf` greatest. -/
def depthLt : Option ℚ → Option ℚ → Prop
  | some _, none => True
  | none, _ => False
  | some a, some b => a < b

/-- "The entry can only have been refined": its depth did not increase, and
its color is unchanged unless the depth strictly decreased. -/
def entLe (e2 e1 : Color4 × Option ℚ) : Prop :=
  depthLe e2.2 e1.2 ∧ (e2.1 = e1.1 ∨ depthLt e2.2 e1.2)

theorem depthLe_refl (d : Option ℚ) : depthLe d d := by
  cases d <;> simp [depthLe]

theorem depthLe_trans {d3 d2 d1 : Option ℚ} (h32 : depthLe d3 d2) (h21 : depthLe d2 d1) :
    depthLe d3 d1 := by
  cases d3 <;> cases d2 <;> cases d1 <;> simp_all [depthLe] <;> linarith

theorem depthLt_of_lt_of_le {d3 d2 d1 : Option ℚ} (h32 : depthLt d3 d2) (h21 : depthLe d2 d1) :
    depthLt d3 d1 := by
  cases d3 <;> cases d2 <;> cases d1 <;> simp_all [depthLe, depthLt] <;> linarith

theorem depthLt_of_le_of_lt {d3 d2 d1 : Option ℚ} (h32 : depthLe d3 d2) (h21 : depthLt d2 d1) :
    depthLt d3 d1 := by
  cases d3 <;> cases d2 <;> cases d1 <;> simp_all [depthLe, depthLt] <;> linarith

theorem entLe_refl (e : Color4 × Option ℚ) : entLe e e :=
  ⟨depthLe_refl _, Or.inl rfl⟩

theorem entLe_trans {e3 e2 e1 : Color4 × Option ℚ} (h32 : entLe e3 e2) (h21 : entLe e2 e1) :
    entLe e3 e1 := by
  obtain ⟨hd32, hc32⟩ := h32
  obtain ⟨hd21, hc21⟩ := h21
  refine ⟨depthLe_trans hd32 hd21, ?_⟩
  rcases hc32 with hc32 | hlt32
  · rcases hc21 with hc21 | hlt21
    · exact Or.inl (hc32.trans hc21)
    · exact Or.inr (depthLt_of_le_of_lt hd32 hlt21)
  · exact Or.inr (depthLt_of_lt_of_le hlt32 hd21)

theorem dltB_depthLt {z : ℚ} {d : Option ℚ} (h : dltB z d = true) : depthLt (some z) d := by
  cases d <;> simp_all [dltB, depthLt]

theorem depthLe_of_lt {d2 d1 : Option ℚ} (h : depthLt d2 d1) : depthLe d2 d1 := by
  cases d2 <;> cases d1 <;> simp_all [depthLe, depthLt] <;> linarith

theorem pixelWrite_entLe (rgba : Color4) (z : ℚ) (cd : Color4 × Option ℚ) :
    entLe (pixelWrite rgba z cd) cd := by
  unfold pixelWrite
  by_cases h : dltB z cd.2
  · rw [if_pos h]
    exact ⟨depthLe_of_lt (dltB_depthLt h), Or.inr (dltB_depthLt h)⟩
  · rw [if_neg h]
    exact entLe_refl _

theorem rowStep_entLe (rgba : Color4) (z0v z1v z2v inv_area : ℚ) (w0 w1 w2 : ℤ)
    (cd : Color4 × Option ℚ) : entLe (rowStep rgba z0v z1v z2v inv_area w0 w1 w2 cd) cd := by
  unfold rowStep
  by_cases h : (0 ≤ w0 ∧ 0 ≤ w1 ∧ 0 ≤ w2) ∨ (w0 ≤ 0 ∧ w1 ≤ 0 ∧ w2 ≤ 0)
  · rw [if_pos h]
    exact pixelWrite_entLe _ _ _
  · rw [if_neg h]
    exact entLe_refl _

theorem faceStep_entLe (shade : ShadeFn) (tverts : List Vec3Q) (pverts : List PVert)
    (vcols : List (ℚ × ℚ × ℚ)) (face : ℕ × ℕ × ℕ) (pw ph px py : ℤ)
    (cd : Color4 × Option ℚ) :
    entLe (faceStep shade tverts pverts vcols face pw ph px py cd) cd := by
  unfold faceStep
  split
  · dsimp only
    split_ifs
    · exact entLe_refl _
    · exact entLe_refl _
    · exact rowStep_entLe _ _ _ _ _ _ _ _ _
    · exact entLe_refl _
  · exact entLe_refl _

/-- The barycentric depth the rasterizer interpolates for face `f` at pixel
`(px, py)` (the z-expression of `fillPixel` with the incremental weights in
closed form); junk `0` when the face has an unreadable or invalid vertex. -/
def faceZAt (pverts : List PVert) (f : ℕ × ℕ × ℕ) (px py : ℤ) : ℚ :=
  match pverts.get? f.1, pverts.get? f.2.1, pverts.get? f.2.2 with
  | some (x0, y0, some z0v), some (x1, y1, some z1v), some (x2, y2, some z2v) =>
    let area := (x1 - x0) * (y2 - y0) - (y1 - y0) * (x2 - x0)
    let inv_area : ℚ := 1 / (area : ℚ)
    let e0 := edgeCoeffs x1 y1 x2 y2
    let e1 := edgeCoeffs x2 y2 x0 y0
    let e2 := edgeCoeffs x0 y0 x1 y1
    ((e0.1 * px + e0.2.1 * py + e0.2.2 : ℤ) : ℚ) * inv_area * z0v +
      ((e1.1 * px + e1.2.1 * py + e1.2.2 : ℤ) : ℚ) * inv_area * z1v +
      ((e2.1 * px + e2.2.1 * py + e2.2.2 : ℤ) : ℚ) * inv_area * z2v
  | _, _, _ => 0

/-- At a fixed pixel, one face of the rasterizer either leaves the entry
alone (unreadable/invalid vertex, degenerate area, empty box, pixel outside
the box or outside the triangle), or performs a depth-tested write of some
color with the interpolated depth `faceZAt` — in either case independently
of the current entry. -/
theorem faceStep_cases (shade : ShadeFn) (tverts : List Vec3Q) (pverts : List PVert)
    (vcols : List (ℚ × ℚ × ℚ)) (f : ℕ × ℕ × ℕ) (pw ph px py : ℤ) :
    (∀ cd, faceStep shade tverts pverts vcols f pw ph px py cd = cd) ∨
    (∃ rgba, ∀ cd, faceStep shade tverts pverts vcols f pw ph px py cd =
      pixelWrite rgba (faceZAt pverts f px py) cd) := by
  rcases hp0 : pverts.get? f.1 with _ | ⟨x0, y0, _ | z0v⟩
  · exact Or.inl fun cd => by simp only [faceStep, hp0]
  · exact Or.inl fun cd => by simp only [faceStep, hp0]
  rcases hp1 : pverts.get? f.2.1 with _ | ⟨x1, y1, _ | z1v⟩
  · exact Or.inl fun cd => by simp only [faceStep, hp0, hp1]
  · exact Or.inl fun cd => by simp only [faceStep, hp0, hp1]
  rcases hp2 : pverts.get? f.2.2 with _ | ⟨x2, y2, _ | z2v⟩
  · exact Or.inl fun cd => by simp only [faceStep, hp0, hp1, hp2]
  · exact Or.inl fun cd => by simp only [faceStep, hp0, hp1, hp2]
  rcases hv0 : tverts.get? f.1 with _ | v0
  · exact Or.inl fun cd => by simp only [faceStep, hp0, hp1, hp2, hv0]
  rcases hv1 : tverts.get? f.2.1 with _ | v1
  · exact Or.inl fun cd => by simp only [faceStep, hp0, hp1, hp2, hv0, hv1]
  rcases hv2 : tverts.get? f.2.2 with _ | v2
  · exact Or.inl fun cd => by simp only [faceStep, hp0, hp1, hp2, hv0, hv1, hv2]
  rcases hc0 : vcols.get? f.1 with _ | c0
  · exact Or.inl fun cd => by simp only [faceStep, hp0, hp1, hp2, hv0, hv1, hv2, hc0]
  rcases hc1 : vcols.get? f.2.1 with _ | c1
  · exact Or.inl fun cd => by simp only [faceStep, hp0, hp1, hp2, hv0, hv1, hv2, hc0, hc1]
  rcases hc2 : vcols.get? f.2.2 with _ | c2
  · exact Or.inl fun cd => by
      simp only [faceStep, hp0, hp1, hp2, hv0, hv1, hv2, hc0, hc1, hc2]
  by_cases harea : (x1 - x0) * (y2 - y0) - (y1 - y0) * (x2 - x0) = 0
  · exact Or.inl fun cd => by
      simp only [faceStep, hp0, hp1, hp2, hv0, hv1, hv2, hc0, hc1, hc2]
      rw [if_pos harea]
  by_cases hbox : max 0 (min x0 (min x1 x2)) > min (pw - 1) (max x0 (max x1 x2)) ∨
      max 0 (min y0 (min y1 y2)) > min (ph - 1) (max y0 (max y1 y2))
  · exact Or.inl fun cd => by
      simp only [faceStep, hp0, hp1, hp2, hv0, hv1, hv2, hc0, hc1, hc2]
      rw [if_neg harea, if_pos hbox]
  by_cases hin : max 0 (min x0 (min x1 x2)) ≤ px ∧ px ≤ min (pw - 1) (max x0 (max x1 x2)) ∧
      max 0 (min y0 (min y1 y2)) ≤ py ∧ py ≤ min (ph - 1) (max y0 (max y1 y2))
  · by_cases hsign : (0 ≤ (y1 - y2) * px + (x2 - x1) * py + (x1 * y2 - y1 * x2) ∧
        0 ≤ (y2 - y0) * px + (x0 - x2) * py + (x2 * y0 - y2 * x0) ∧
        0 ≤ (y0 - y1) * px + (x1 - x0) * py + (x0 * y1 - y0 * x1)) ∨
        ((y1 - y2) * px + (x2 - x1) * py + (x1 * y2 - y1 * x2) ≤ 0 ∧
          (y2 - y0) * px + (x0 - x2) * py + (x2 * y0 - y2 * x0) ≤ 0 ∧
          (y0 - y1) * px + (x1 - x0) * py + (x0 * y1 - y0 * x1) ≤ 0)
    · refine Or.inr ⟨((shade ((c0.1 + c1.1 + c2.1) / 3, (c0.2.1 + c1.2.1 + c2.2.1) / 3,
            (c0.2.2 + c1.2.2 + c2.2.2) / 3) ((v1.sub v0).cross (v2.sub v0))
            (((v0.add v1).add v2).smul (1 / 3))
            (decide (0 < (x1 - x0) * (y2 - y0) - (y1 - y0) * (x2 - x0)))).1,
          (shade ((c0.1 + c1.1 + c2.1) / 3, (c0.2.1 + c1.2.1 + c2.2.1) / 3,
            (c0.2.2 + c1.2.2 + c2.2.2) / 3) ((v1.sub v0).cross (v2.sub v0))
            (((v0.add v1).add v2).smul (1 / 3))
            (decide (0 < (x1 - x0) * (y2 - y0) - (y1 - y0) * (x2 - x0)))).2.1,
          (shade ((c0.1 + c1.1 + c2.1) / 3, (c0.2.1 + c1.2.1 + c2.2.1) / 3,
            (c0.2.2 + c1.2.2 + c2.2.2) / 3) ((v1.sub v0).cross (v2.sub v0))
            (((v0.add v1).add v2).smul (1 / 3))
            (decide (0 < (x1 - x0) * (y2 - y0) - (y1 - y0) * (x2 - x0)))).2.2, 1), fun cd => ?_⟩
      simp only [faceStep, hp0, hp1, hp2, hv0, hv1, hv2, hc0, hc1, hc2, edgeCoeffs]
      rw [if_neg harea, if_neg hbox, if_pos hin]
      unfold rowStep
      rw [if_pos hsign]
      simp only [faceZAt, hp0, hp1, hp2, edgeCoeffs]
    · exact Or.inl fun cd => by
        simp only [faceStep, hp0, hp1, hp2, hv0, hv1, hv2, hc0, hc1, hc2, edgeCoeffs]
        rw [if_neg harea, if_neg hbox, if_pos hin]
        unfold rowStep
        rw [if_neg hsign]
  · exact Or.inl fun cd => by
      simp only [faceStep, hp0, hp1, hp2, hv0, hv1, hv2, hc0, hc1, hc2]
      rw [if_neg harea, if_neg hbox, if_neg hin]

/-- Two depth-tested writes at the same pixel with distinct depths commute. -/
theorem pixelWrite_comm (r1 r2 : Color4) (z1 z2 : ℚ) (hz : z1 ≠ z2)
    (cd : Color4 × Option ℚ) :
    pixelWrite r2 z2 (pixelWrite r1 z1 cd) = pixelWrite r1 z1 (pixelWrite r2 z2 cd) := by
  rcases hz.lt_or_lt with h | h <;>
    rcases cd with ⟨c, _ | d⟩ <;>
      simp [pixelWrite, dltB, decide_eq_true_eq] <;>
        split_ifs <;> simp_all <;> first | rfl | linarith

theorem wltB_depthLt {z d : Option ℚ} (h : wltB z d = true) : depthLt z d := by
  cases z with
  | none => simp [wltB] at h
  | some zq => exact dltB_depthLt h

theorem entryAt_of_ge {b : Buffers} {j : ℕ} (hc : b.color.length ≤ j)
    (hd : b.depth.length ≤ j) : entryAt b j = ((0, 0, 0, 0), none) := by
  unfold entryAt
  rw [List.getD_eq_getElem?_getD, List.getD_eq_getElem?_getD,
    List.getElem?_eq_none hc, List.getElem?_eq_none hd]
  rfl

/-- Decompose an in-range flat buffer index into pixel coordinates. -/
theorem idx_decompose {N : ℕ} {pw ph : ℤ} (hN : (N : ℤ) = pw * ph) (hpw : 0 ≤ pw)
    (hph : 0 ≤ ph) (j : ℕ) (hj : j < N) :
    ∃ px py : ℤ, 0 ≤ px ∧ px < pw ∧ 0 ≤ py ∧ py < ph ∧ (py * pw + px).toNat = j := by
  have hjZ : (j : ℤ) < pw * ph := by omega
  have hpw0 : 0 < pw := by
    rcases lt_or_eq_of_le hpw with h | h
    · exact h
    · exfalso
      rw [← h] at hjZ
      simp at hjZ
      omega
  refine ⟨(j : ℤ) % pw, (j : ℤ) / pw, Int.emod_nonneg _ (ne_of_gt hpw0),
    Int.emod_lt_of_pos _ hpw0, Int.ediv_nonneg (by positivity) hpw, ?_, ?_⟩
  · rw [Int.ediv_lt_iff_lt_mul hpw0]
    calc ((j : ℤ)) < pw * ph := hjZ
    _ = ph * pw := by ring
  · have h5 := Int.ediv_add_emod (j : ℤ) pw
    have h6 : (j : ℤ) / pw * pw = pw * ((j : ℤ) / pw) := by ring
    omega

/-- `drawPixel` always succeeds on correctly sized buffers, preserves their
sizes, and can only refine entries (guarded depth-tested write). -/
theorem drawPixel_props (pw ph : ℤ) (color : Color3) (z : Option ℚ) (x y : ℤ)
    (bufs : Buffers) (N : ℕ) (hN : (N : ℤ) = pw * ph)
    (hcl : bufs.color.length = N) (hdl : bufs.depth.length = N) :
    ∃ b2, drawPixel pw ph color z x y bufs = some b2 ∧
      b2.color.length = N ∧ b2.depth.length = N ∧
      ∀ j : ℕ, entLe (entryAt b2 j) (entryAt bufs j) := by
  by_cases hg : 0 ≤ x ∧ x < pw ∧ 0 ≤ y ∧ y < ph
  · obtain ⟨hx0, hxw, hy0, hyh⟩ := hg
    have hidx0 : 0 ≤ y * pw + x := by
      have h5 := mul_nonneg hy0 (le_of_lt (lt_of_le_of_lt hx0 hxw))
      omega
    have hidxN : y * pw + x < (N : ℤ) := by
      rw [hN]
      nlinarith
    have hbN : (y * pw + x).toNat < N := by omega
    have hdepth : pyGet bufs.depth (y * pw + x) =
        some (bufs.depth.getD (y * pw + x).toNat none) := by
      rw [pyGet_nonneg _ _ hidx0]
      exact get?_eq_some_getD _ _ _ (by rw [hdl]; exact hbN)
    by_cases hzd : wltB z (bufs.depth.getD (y * pw + x).toNat none)
    · have hsetd : pySet bufs.depth (y * pw + x) z =
          some (bufs.depth.set (y * pw + x).toNat z) :=
        pySet_nonneg _ _ _ hidx0 (by rw [hdl]; exact hbN)
      have hsetc : pySet bufs.color (y * pw + x) (color.1, color.2.1, color.2.2, 1) =
          some (bufs.color.set (y * pw + x).toNat (color.1, color.2.1, color.2.2, 1)) :=
        pySet_nonneg _ _ _ hidx0 (by rw [hcl]; exact hbN)
      refine ⟨⟨bufs.color.set (y * pw + x).toNat (color.1, color.2.1, color.2.2, 1),
        bufs.depth.set (y * pw + x).toNat z⟩, ?_, ?_, ?_, ?_⟩
      · simp only [drawPixel]
        rw [if_pos ⟨hx0, hxw, hy0, hyh⟩, hdepth]
        simp only [optBind_some]
        rw [if_pos hzd, hsetd]
        simp only [optBind_some]
        rw [hsetc]
        simp only [optBind_some]
        rfl
      · simpa [List.length_set] using hcl
      · simpa [List.length_set] using hdl
      · intro j
        by_cases hj : j = (y * pw + x).toNat
        · subst hj
          have hlt := wltB_depthLt hzd
          unfold entryAt
          rw [getD_set_self _ _ _ _ (by rw [hcl]; exact hbN),
            getD_set_self _ _ _ _ (by rw [hdl]; exact hbN)]
          exact ⟨depthLe_of_lt hlt, Or.inr hlt⟩
        · unfold entryAt
          rw [getD_set_other _ _ _ (fun h => hj h.symm),
            getD_set_other _ _ _ (fun h => hj h.symm)]
          exact entLe_refl _
    · refine ⟨bufs, ?_, hcl, hdl, fun j => entLe_refl _⟩
      simp only [drawPixel]
      rw [if_pos ⟨hx0, hxw, hy0, hyh⟩, hdepth]
      simp only [optBind_some]
      rw [if_neg hzd]
      rfl
  · refine ⟨bufs, ?_, hcl, hdl, fun j => entLe_refl _⟩
    simp only [drawPixel]
    rw [if_neg hg]
    rfl

/-- The Bresenham loop always terminates successfully on correctly sized
buffers and can only refine entries. -/
theorem lineLoop_props (pw ph : ℤ) (color : Color3) (z0 z1 : Option ℚ)
    (x1 y1 dx dy sx sy steps : ℤ) (N : ℕ) (hN : (N : ℤ) = pw * ph) :
    ∀ (fuel : ℕ) (i x y err : ℤ) (bufs : Buffers),
      bufs.color.length = N → bufs.depth.length = N →
      ∃ b2, lineLoop pw ph color z0 z1 x1 y1 dx dy sx sy steps fuel i x y err bufs =
          some b2 ∧
        b2.color.length = N ∧ b2.depth.length = N ∧
        ∀ j : ℕ, entLe (entryAt b2 j) (entryAt bufs j) := by
  intro fuel
  induction fuel with
  | zero =>
    intro i x y err bufs hcl hdl
    exact ⟨bufs, rfl, hcl, hdl, fun j => entLe_refl _⟩
  | succ fuel ih =>
    intro i x y err bufs hcl hdl
    obtain ⟨b1, hb1, hcl1, hdl1, hm1⟩ := drawPixel_props pw ph color
      (interpZ z0 z1 (if 0 < steps then (i : ℚ) / (steps : ℚ) else 0))
      x y bufs N hN hcl hdl
    by_cases hbrk : x = x1 ∧ y = y1
    · refine ⟨b1, ?_, hcl1, hdl1, hm1⟩
      simp only [lineLoop]
      rw [hb1]
      simp only [optBind_some]
      rw [if_pos hbrk]
      rfl
    · obtain ⟨b2, hb2, hcl2, hdl2, hm2⟩ := ih (i + 1)
        (if 2 * err > -dy then (err - dy, x + sx) else (err, x)).2
        (if 2 * err < dx then
          ((if 2 * err > -dy then (err - dy, x + sx) else (err, x)).1 + dx, y + sy)
        else ((if 2 * err > -dy then (err - dy, x + sx) else (err, x)).1, y)).2
        (if 2 * err < dx then
          ((if 2 * err > -dy then (err - dy, x + sx) else (err, x)).1 + dx, y + sy)
        else ((if 2 * err > -dy then (err - dy, x + sx) else (err, x)).1, y)).1
        b1 hcl1 hdl1
      refine ⟨b2, ?_, hcl2, hdl2, fun j => entLe_trans (hm2 j) (hm1 j)⟩
      simp only [lineLoop]
      rw [hb1]
      simp only [optBind_some]
      rw [if_neg hbrk]
      exact hb2

/-- Drawing one edge succeeds on correctly sized buffers and only refines
entries. -/
theorem drawLine_props (pw ph : ℤ) (color : Color3) (p0 p1v : PVert) (bufs : Buffers)
    (N : ℕ) (hN : (N : ℤ) = pw * ph)
    (hcl : bufs.color.length = N) (hdl : bufs.depth.length = N) :
    ∃ b2, drawLine pw ph color p0 p1v bufs = some b2 ∧
      b2.color.length = N ∧ b2.depth.length = N ∧
      ∀ j : ℕ, entLe (entryAt b2 j) (entryAt bufs j) := by
  obtain ⟨b2, hb2, h1, h2, h3⟩ := lineLoop_props pw ph color p0.2.2 p1v.2.2 p1v.1 p1v.2.1
    |p1v.1 - p0.1| |p1v.2.1 - p0.2.1| (if p0.1 < p1v.1 then 1 else -1)
    (if p0.2.1 < p1v.2.1 then 1 else -1)
    (if 0 < max |p1v.1 - p0.1| |p1v.2.1 - p0.2.1| then max |p1v.1 - p0.1| |p1v.2.1 - p0.2.1|
      else 1) N hN
    ((if 0 < max |p1v.1 - p0.1| |p1v.2.1 - p0.2.1| then max |p1v.1 - p0.1| |p1v.2.1 - p0.2.1|
      else 1) + 1).toNat 0 p0.1 p0.2.1 (|p1v.1 - p0.1| - |p1v.2.1 - p0.2.1|) bufs hcl hdl
  exact ⟨b2, hb2, h1, h2, h3⟩

/-- `_draw_wireframe` succeeds when every face index is in range and only
refines entries. -/
theorem drawWireframe_props (pw ph : ℤ) (pverts : List PVert) (color : Color3) (N : ℕ)
    (hN : (N : ℤ) = pw * ph) :
    ∀ (faces : List (ℕ × ℕ × ℕ)) (bufs : Buffers),
      (∀ f ∈ faces, f.1 < pverts.length ∧ f.2.1 < pverts.length ∧ f.2.2 < pverts.length) →
      bufs.color.length = N → bufs.depth.length = N →
      ∃ b2, drawWireframe pw ph faces pverts color bufs = some b2 ∧
        b2.color.length = N ∧ b2.depth.length = N ∧
        ∀ j : ℕ, entLe (entryAt b2 j) (entryAt bufs j) := by
  intro faces
  induction faces with
  | nil =>
    intro bufs _ hcl hdl
    exact ⟨bufs, rfl, hcl, hdl, fun j => entLe_refl _⟩
  | cons f fs ih =>
    intro bufs hface hcl hdl
    obtain ⟨h0, h1, h2⟩ := hface f (List.mem_cons_self _ _)
    obtain ⟨pa, hpa⟩ : ∃ v, pverts.get? f.1 = some v :=
      ⟨_, by rw [List.get?_eq_getElem?, List.getElem?_eq_getElem h0]⟩
    obtain ⟨pb, hpb⟩ : ∃ v, pverts.get? f.2.1 = some v :=
      ⟨_, by rw [List.get?_eq_getElem?, List.getElem?_eq_getElem h1]⟩
    obtain ⟨pc, hpc⟩ : ∃ v, pverts.get? f.2.2 = some v :=
      ⟨_, by rw [List.get?_eq_getElem?, List.getElem?_eq_getElem h2]⟩
    obtain ⟨b1, hb1, hcl1, hdl1, hm1⟩ := drawLine_props pw ph color pa pb bufs N hN hcl hdl
    obtain ⟨b2, hb2, hcl2, hdl2, hm2⟩ := drawLine_props pw ph color pb pc b1 N hN hcl1 hdl1
    obtain ⟨b3, hb3, hcl3, hdl3, hm3⟩ := drawLine_props pw ph color pc pa b2 N hN hcl2 hdl2
    obtain ⟨b4, hb4, hcl4, hdl4, hm4⟩ := ih b3 (fun g hg => hface g (List.mem_cons_of_mem _ hg))
      hcl3 hdl3
    refine ⟨b4, ?_, hcl4, hdl4,
      fun j => entLe_trans (hm4 j) (entLe_trans (hm3 j) (entLe_trans (hm2 j) (hm1 j)))⟩
    simp only [drawWireframe, List.foldlM_cons, hpa, hpb, hpc, optBind_some, hb1, hb2, hb3]
    simpa only [drawWireframe] using hb4

/-- The flat/phong face loop succeeds when every face index is in range. -/
theorem foldFaces_some (shade : ShadeFn) (pw ph : ℤ) (tverts : List Vec3Q)
    (pverts : List PVert) (vcols : List (ℚ × ℚ × ℚ)) (N : ℕ) (hN : (N : ℤ) = pw * ph)
    (htl : tverts.length = pverts.length) (hvl : vcols.length = pverts.length) :
    ∀ (faces : List (ℕ × ℕ × ℕ)) (bufs : Buffers),
      (∀ f ∈ faces, f.1 < pverts.length ∧ f.2.1 < pverts.length ∧ f.2.2 < pverts.length) →
      bufs.color.length = N → bufs.depth.length = N →
      ∃ b2, faces.foldlM (fun b f => processFace shade pw ph tverts pverts vcols b f) bufs =
          some b2 ∧
        b2.color.length = N ∧ b2.depth.length = N := by
  intro faces
  induction faces with
  | nil =>
    intro bufs _ hcl hdl
    exact ⟨bufs, rfl, hcl, hdl⟩
  | cons f fs ih =>
    intro bufs hface hcl hdl
    obtain ⟨h0, h1, h2⟩ := hface f (List.mem_cons_self _ _)
    obtain ⟨b1, hb1, hcl1, hdl1, -⟩ := processFace_char shade pw ph tverts pverts vcols f
      bufs N hN hcl hdl h0 h1 h2 htl hvl
    obtain ⟨b2, hb2, hcl2, hdl2⟩ := ih b1 (fun g hg => hface g (List.mem_cons_of_mem _ hg))
      hcl1 hdl1
    refine ⟨b2, ?_, hcl2, hdl2⟩
    simp only [List.foldlM_cons, hb1, optBind_some]
    exact hb2

/-- The flat/phong face loop only refines entries (depth-test gating). -/
theorem foldFaces_mono (shade : ShadeFn) (pw ph : ℤ) (tverts : List Vec3Q)
    (pverts : List PVert) (vcols : List (ℚ × ℚ × ℚ)) (N : ℕ) (hN : (N : ℤ) = pw * ph)
    (hpw : 0 ≤ pw) (hph : 0 ≤ ph)
    (htl : tverts.length = pverts.length) (hvl : vcols.length = pverts.length) :
    ∀ (faces : List (ℕ × ℕ × ℕ)) (bufs b2 : Buffers),
      (∀ f ∈ faces, f.1 < pverts.length ∧ f.2.1 < pverts.length ∧ f.2.2 < pverts.length) →
      bufs.color.length = N → bufs.depth.length = N →
      faces.foldlM (fun b f => processFace shade pw ph tverts pverts vcols b f) bufs =
        some b2 →
      ∀ j : ℕ, entLe (entryAt b2 j) (entryAt bufs j) := by
  intro faces
  induction faces with
  | nil =>
    intro bufs b2 _ hcl hdl hfold j
    simp only [List.foldlM_nil] at hfold
    cases hfold
    exact entLe_refl _
  | cons f fs ih =>
    intro bufs b2 hface hcl hdl hfold j
    obtain ⟨h0, h1, h2⟩ := hface f (List.mem_cons_self _ _)
    obtain ⟨b1, hb1, hcl1, hdl1, hch1⟩ := processFace_char shade pw ph tverts pverts vcols f
      bufs N hN hcl hdl h0 h1 h2 htl hvl
    simp only [List.foldlM_cons, hb1, optBind_some] at hfold
    have hrest := ih b1 b2 (fun g hg => hface g (List.mem_cons_of_mem _ hg)) hcl1 hdl1 hfold j
    refine entLe_trans hrest ?_
    by_cases hj : j < N
    · obtain ⟨px, py, hx0, hxw, hy0, hyh, hidx⟩ := idx_decompose hN hpw hph j hj
      have := hch1 px py hx0 hxw hy0 hyh
      rw [hidx] at this
      rw [this]
      exact faceStep_entLe _ _ _ _ _ _ _ _ _ _
    · rw [entryAt_of_ge (by omega) (by omega), entryAt_of_ge (by omega) (by omega)]
      exact entLe_refl _

/-- C9: for every mesh whose face indices lie in `[0, len(verts))` (with the
pipeline's parallel vertex arrays), every color/depth buffer access of the
rasterizer — filled triangles and wireframe edges alike — is in range: the
whole call succeeds (`some`, i.e. no `IndexError`) and the buffer sizes are
preserved, even when projected vertices lie far outside the viewport. -/
theorem rasterize_never_out_of_bounds (shade : ShadeFn) (pw ph : ℤ) (mesh : MeshQ)
    (tverts : List Vec3Q) (pverts : List PVert) (bufs : Buffers)
    (hface : ∀ f ∈ mesh.faces,
      f.1 < pverts.length ∧ f.2.1 < pverts.length ∧ f.2.2 < pverts.length)
    (htl : tverts.length = pverts.length) (hvl : mesh.vcols.length = pverts.length)
    (hcl : (bufs.color.length : ℤ) = pw * ph) (hdl : (bufs.depth.length : ℤ) = pw * ph) :
    ∃ b2, rasterizeTriangles shade pw ph mesh tverts pverts bufs = some b2 ∧
      b2.color.length = bufs.color.length ∧ b2.depth.length = bufs.depth.length := by
  have hdlN : bufs.depth.length = bufs.color.length := by omega
  cases hmat : mesh.material with
  | wireframe =>
    obtain ⟨b2, hb2, h1, h2, -⟩ := drawWireframe_props pw ph pverts (255, 255, 255)
      bufs.color.length hcl mesh.faces bufs hface rfl hdlN
    refine ⟨b2, ?_, h1, by omega⟩
    simp only [rasterizeTriangles, hmat]
    exact hb2
  | flat =>
    obtain ⟨b2, hb2, h1, h2⟩ := foldFaces_some shade pw ph tverts pverts mesh.vcols
      bufs.color.length hcl htl hvl mesh.faces bufs hface rfl hdlN
    refine ⟨b2, ?_, h1, by omega⟩
    simp only [rasterizeTriangles, hmat]
    exact hb2
  | phong =>
    obtain ⟨b2, hb2, h1, h2⟩ := foldFaces_some shade pw ph tverts pverts mesh.vcols
      bufs.color.length hcl htl hvl mesh.faces bufs hface rfl hdlN
    refine ⟨b2, ?_, h1, by omega⟩
    simp only [rasterizeTriangles, hmat]
    exact hb2

/-- C1: (i) rasterization only ever refines a pixel entry: across a whole
`_rasterize_triangles` call (filled or wireframe), the stored depth at
every pixel never increases, and the color changes only when the depth
strictly decreased (the `z < depth` test gates every write); (ii) for two
triangles rasterized in either order, any pixel at which their interpolated
depths differ ends with the same color and depth regardless of the order —
the nearer triangle wins. -/
theorem rasterize_depth_test :
    (∀ (shade : ShadeFn) (pw ph : ℤ) (mesh : MeshQ) (tverts : List Vec3Q)
        (pverts : List PVert) (bufs b2 : Buffers),
        0 ≤ pw → 0 ≤ ph →
        (∀ f ∈ mesh.faces,
          f.1 < pverts.length ∧ f.2.1 < pverts.length ∧ f.2.2 < pverts.length) →
        tverts.length = pverts.length → mesh.vcols.length = pverts.length →
        (bufs.color.length : ℤ) = pw * ph → (bufs.depth.length : ℤ) = pw * ph →
        rasterizeTriangles shade pw ph mesh tverts pverts bufs = some b2 →
        ∀ j : ℕ, depthLe (entryAt b2 j).2 (entryAt bufs j).2 ∧
          ((entryAt b2 j).1 = (entryAt bufs j).1 ∨
            depthLt (entryAt b2 j).2 (entryAt bufs j).2)) ∧
    (∀ (shade : ShadeFn) (pw ph : ℤ) (tverts : List Vec3Q) (pverts : List PVert)
        (vcols : List (ℚ × ℚ × ℚ)) (f1 f2 : ℕ × ℕ × ℕ) (mat : Material)
        (bufs b12 b21 : Buffers),
        mat ≠ Material.wireframe →
        f1.1 < pverts.length → f1.2.1 < pverts.length → f1.2.2 < pverts.length →
        f2.1 < pverts.length → f2.2.1 < pverts.length → f2.2.2 < pverts.length →
        tverts.length = pverts.length → vcols.length = pverts.length →
        (bufs.color.length : ℤ) = pw * ph → (bufs.depth.length : ℤ) = pw * ph →
        rasterizeTriangles shade pw ph ⟨[f1, f2], vcols, mat⟩ tverts pverts bufs =
          some b12 →
        rasterizeTriangles shade pw ph ⟨[f2, f1], vcols, mat⟩ tverts pverts bufs =
          some b21 →
        ∀ px py : ℤ, 0 ≤ px → px < pw → 0 ≤ py → py < ph →
          faceZAt pverts f1 px py ≠ faceZAt pverts f2 px py →
          entryAt b12 (py * pw + px).toNat = entryAt b21 (py * pw + px).toNat) := by
  constructor
  · intro shade pw ph mesh tverts pverts bufs b2 hpw hph hface htl hvl hcl hdl hrun j
    have hdlN : bufs.depth.length = bufs.color.length := by omega
    have hent : entLe (entryAt b2 j) (entryAt bufs j) := by
      cases hmat : mesh.material with
      | wireframe =>
        obtain ⟨b2w, hb2w, -, -, hm⟩ := drawWireframe_props pw ph pverts (255, 255, 255)
          bufs.color.length hcl mesh.faces bufs hface rfl hdlN
        simp only [rasterizeTriangles, hmat] at hrun
        rw [hrun] at hb2w
        cases hb2w
        exact hm j
      | flat =>
        simp only [rasterizeTriangles, hmat] at hrun
        exact foldFaces_mono shade pw ph tverts pverts mesh.vcols bufs.color.length hcl
          hpw hph htl hvl mesh.faces bufs b2 hface rfl hdlN hrun j
      | phong =>
        simp only [rasterizeTriangles, hmat] at hrun
        exact foldFaces_mono shade pw ph tverts pverts mesh.vcols bufs.color.length hcl
          hpw hph htl hvl mesh.faces bufs b2 hface rfl hdlN hrun j
    exact ⟨hent.1, hent.2⟩
  · intro shade pw ph tverts pverts vcols f1 f2 mat bufs b12 b21 hmat
      h10 h11 h12i h20 h21 h22i htl hvl hcl hdl hrun12 hrun21 px py hx0 hxw hy0 hyh hdiff
    have hdlN : bufs.depth.length = bufs.color.length := by omega
    set N := bufs.color.length with hNdef
    obtain ⟨bA, hbA, hclA, hdlA, hchA⟩ := processFace_char shade pw ph tverts pverts vcols f1
      bufs N hcl rfl hdlN h10 h11 h12i htl hvl
    obtain ⟨bAB, hbAB, hclAB, hdlAB, hchAB⟩ := processFace_char shade pw ph tverts pverts
      vcols f2 bA N hcl hclA hdlA h20 h21 h22i htl hvl
    obtain ⟨bB, hbB, hclB, hdlB, hchB⟩ := processFace_char shade pw ph tverts pverts vcols f2
      bufs N hcl rfl hdlN h20 h21 h22i htl hvl
    obtain ⟨bBA, hbBA, hclBA, hdlBA, hchBA⟩ := processFace_char shade pw ph tverts pverts
      vcols f1 bB N hcl hclB hdlB h10 h11 h12i htl hvl
    have hfold12 : List.foldlM (fun b f => processFace shade pw ph tverts pverts vcols b f)
        bufs [f1, f2] = some b12 := by
      cases mat with
      | wireframe => exact absurd rfl hmat
      | flat => exact hrun12
      | phong => exact hrun12
    have hfold21 : List.foldlM (fun b f => processFace shade pw ph tverts pverts vcols b f)
        bufs [f2, f1] = some b21 := by
      cases mat with
      | wireframe => exact absurd rfl hmat
      | flat => exact hrun21
      | phong => exact hrun21
    simp only [List.foldlM_cons, List.foldlM_nil, hbA, optBind_some, hbAB,
      Option.pure_def] at hfold12
    simp only [List.foldlM_cons, List.foldlM_nil, hbB, optBind_some, hbBA,
      Option.pure_def] at hfold21
    cases hfold12
    cases hfold21
    rw [hchAB px py hx0 hxw hy0 hyh, hchA px py hx0 hxw hy0 hyh,
      hchBA px py hx0 hxw hy0 hyh, hchB px py hx0 hxw hy0 hyh]
    rcases faceStep_cases shade tverts pverts vcols f1 pw ph px py with h1 | ⟨r1, h1⟩ <;>
      rcases faceStep_cases shade tverts pverts vcols f2 pw ph px py with h2 | ⟨r2, h2⟩
    · simp only [h1, h2]
    · simp only [h1, h2]
    · simp only [h1, h2]
    · simp only [h1, h2]
      exact pixelWrite_comm r1 r2 (faceZAt pverts f1 px py) (faceZAt pverts f2 px py)
        hdiff _

/-- A concrete shading function for witness scenarios: truncate the average
vertex color. -/
def shadeW : ShadeFn := fun avg _ _ _ => (pyInt avg.1, pyInt avg.2.1, pyInt avg.2.2)

/-- C9 witness: a concrete one-pixel rasterization with in-range face
indices succeeds. -/
theorem rasterize_never_out_of_bounds_witness :
    ∃ b2,
      rasterizeTriangles shadeW 1 1
        ⟨[(0, 1, 2)], [(10, 10, 10), (10, 10, 10), (10, 10, 10)], Material.flat⟩
        [⟨0, 0, 0⟩, ⟨1, 0, 0⟩, ⟨0, 1, 0⟩]
        [(0, 0, some 1), (1, 0, some 1), (0, 1, some 1)]
        ⟨[(0, 0, 0, 0)], [none]⟩ = some b2 ∧
      b2.color.length = 1 ∧ b2.depth.length = 1 := by
  obtain ⟨b2, h1, h2, h3⟩ := rasterize_never_out_of_bounds shadeW 1 1
    ⟨[(0, 1, 2)], [(10, 10, 10), (10, 10, 10), (10, 10, 10)], Material.flat⟩
    [⟨0, 0, 0⟩, ⟨1, 0, 0⟩, ⟨0, 1, 0⟩]
    [(0, 0, some 1), (1, 0, some 1), (0, 1, some 1)]
    ⟨[(0, 0, 0, 0)], [none]⟩
    (by simp) rfl rfl (by norm_num) (by norm_num)
  exact ⟨b2, h1, h2, h3⟩

/-- C1 witness: two overlapping triangles at depths 1 and 2 on a one-pixel
buffer, rasterized in both orders, give the same final entry (the color of
the nearer one), and the depth at the pixel did not increase. -/
theorem rasterize_depth_test_witness :
    rasterizeTriangles shadeW 1 1
      ⟨[(0, 1, 2), (3, 4, 5)],
        [(10, 10, 10), (10, 10, 10), (10, 10, 10), (20, 20, 20), (20, 20, 20), (20, 20, 20)],
        Material.flat⟩
      [⟨0, 0, 0⟩, ⟨1, 0, 0⟩, ⟨0, 1, 0⟩, ⟨0, 0, 0⟩, ⟨1, 0, 0⟩, ⟨0, 1, 0⟩]
      [(0, 0, some 1), (1, 0, some 1), (0, 1, some 1),
        (0, 0, some 2), (1, 0, some 2), (0, 1, some 2)]
      ⟨[(0, 0, 0, 0)], [none]⟩ = some ⟨[(10, 10, 10, 1)], [some 1]⟩ ∧
    rasterizeTriangles shadeW 1 1
      ⟨[(3, 4, 5), (0, 1, 2)],
        [(10, 10, 10), (10, 10, 10), (10, 10, 10), (20, 20, 20), (20, 20, 20), (20, 20, 20)],
        Material.flat⟩
      [⟨0, 0, 0⟩, ⟨1, 0, 0⟩, ⟨0, 1, 0⟩, ⟨0, 0, 0⟩, ⟨1, 0, 0⟩, ⟨0, 1, 0⟩]
      [(0, 0, some 1), (1, 0, some 1), (0, 1, some 1),
        (0, 0, some 2), (1, 0, some 2), (0, 1, some 2)]
      ⟨[(0, 0, 0, 0)], [none]⟩ = some ⟨[(10, 10, 10, 1)], [some 1]⟩ ∧
    entryAt ⟨[(10, 10, 10, 1)], [some 1]⟩ ((0 : ℤ) * 1 + 0).toNat =
      entryAt ⟨[(10, 10, 10, 1)], [some 1]⟩ ((0 : ℤ) * 1 + 0).toNat ∧
    depthLe (entryAt (⟨[(10, 10, 10, 1)], [some 1]⟩ : Buffers) 0).2
      (entryAt (⟨[(0, 0, 0, 0)], [none]⟩ : Buffers) 0).2 := by
  have h12 : rasterizeTriangles shadeW 1 1
      ⟨[(0, 1, 2), (3, 4, 5)],
        [(10, 10, 10), (10, 10, 10), (10, 10, 10), (20, 20, 20), (20, 20, 20), (20, 20, 20)],
        Material.flat⟩
      [⟨0, 0, 0⟩, ⟨1, 0, 0⟩, ⟨0, 1, 0⟩, ⟨0, 0, 0⟩, ⟨1, 0, 0⟩, ⟨0, 1, 0⟩]
      [(0, 0, some 1), (1, 0, some 1), (0, 1, some 1),
        (0, 0, some 2), (1, 0, some 2), (0, 1, some 2)]
      ⟨[(0, 0, 0, 0)], [none]⟩ = some ⟨[(10, 10, 10, 1)], [some 1]⟩ := by
    norm_num [rasterizeTriangles, processFace, fillBox, fillRow, fillPixel, edgeCoeffs,
      pyGet, pySet, pyInt, dltB, List.foldlM, optBind_some, List.get?, shadeW,
      Vec3Q.sub, Vec3Q.add, Vec3Q.cross, Vec3Q.smul]
  have h21 : rasterizeTriangles shadeW 1 1
      ⟨[(3, 4, 5), (0, 1, 2)],
        [(10, 10, 10), (10, 10, 10), (10, 10, 10), (20, 20, 20), (20, 20, 20), (20, 20, 20)],
        Material.flat⟩
      [⟨0, 0, 0⟩, ⟨1, 0, 0⟩, ⟨0, 1, 0⟩, ⟨0, 0, 0⟩, ⟨1, 0, 0⟩, ⟨0, 1, 0⟩]
      [(0, 0, some 1), (1, 0, some 1), (0, 1, some 1),
        (0, 0, some 2), (1, 0, some 2), (0, 1, some 2)]
      ⟨[(0, 0, 0, 0)], [none]⟩ = some ⟨[(10, 10, 10, 1)], [some 1]⟩ := by
    norm_num [rasterizeTriangles, processFace, fillBox, fillRow, fillPixel, edgeCoeffs,
      pyGet, pySet, pyInt, dltB, List.foldlM, optBind_some, List.get?, shadeW,
      Vec3Q.sub, Vec3Q.add, Vec3Q.cross, Vec3Q.smul]
  refine ⟨h12, h21, ?_, ?_⟩
  · exact rasterize_depth_test.2 shadeW 1 1
      [⟨0, 0, 0⟩, ⟨1, 0, 0⟩, ⟨0, 1, 0⟩, ⟨0, 0, 0⟩, ⟨1, 0, 0⟩, ⟨0, 1, 0⟩]
      [(0, 0, some 1), (1, 0, some 1), (0, 1, some 1),
        (0, 0, some 2), (1, 0, some 2), (0, 1, some 2)]
      [(10, 10, 10), (10, 10, 10), (10, 10, 10), (20, 20, 20), (20, 20, 20), (20, 20, 20)]
      (0, 1, 2) (3, 4, 5) Material.flat ⟨[(0, 0, 0, 0)], [none]⟩ _ _
      (by simp) (by norm_num) (by norm_num) (by norm_num) (by norm_num) (by norm_num)
      (by norm_num) rfl rfl (by norm_num) (by norm_num) h12 h21 0 0
      (by norm_num) (by norm_num) (by norm_num) (by norm_num)
      (by norm_num [faceZAt, edgeCoeffs, List.get?])
  · exact (rasterize_depth_test.1 shadeW 1 1
      ⟨[(0, 1, 2), (3, 4, 5)],
        [(10, 10, 10), (10, 10, 10), (10, 10, 10), (20, 20, 20), (20, 20, 20), (20, 20, 20)],
        Material.flat⟩
      [⟨0, 0, 0⟩, ⟨1, 0, 0⟩, ⟨0, 1, 0⟩, ⟨0, 0, 0⟩, ⟨1, 0, 0⟩, ⟨0, 1, 0⟩]
      [(0, 0, some 1), (1, 0, some 1), (0, 1, some 1),
        (0, 0, some 2), (1, 0, some 2), (0, 1, some 2)]
      ⟨[(0, 0, 0, 0)], [none]⟩ _ (by norm_num) (by norm_num) (by simp) rfl rfl
      (by norm_num) (by norm_num) h12 0).1

/-! ## Projection to screen (renderer.Renderer._project_vertices)

The projection pipeline computes with `math.tan` / trigonometric rotations,
so it lives over `ℝ`; a projected depth is `Option ℝ` with `none` the
`float('inf')` marker for "behind camera / invalid". -/

/-- Python `int(x)` on a float: truncation toward zero. -/
noncomputable def pyIntR (x : ℝ) : ℤ := if 0 ≤ x then ⌊x⌋ else ⌈x⌉

/-- `Camera` (objects.py:96-106). -/
structure CameraR where
  fov : ℝ
  znear : ℝ
  zfar : ℝ
  zoom : ℝ
  pos : Vec3R
  rot : Vec3R

/-- The view matrix of `_project_vertices` (renderer.py:184-187). -/
noncomputable def viewMatrix (c : CameraR) : Mat4 :=
  Mat4.rotate_x (-c.rot.x) * Mat4.rotate_y (-c.rot.y) * Mat4.rotate_z (-c.rot.z) *
    Mat4.translate (-c.pos.x) (-c.pos.y) (-c.pos.z)

/-- `_project_vertices` (renderer.py:178-206): view transform, the
`z_proj = v_view.z + zoom ≤ znear` invalid marker, perspective transform,
and the NDC-to-pixel mapping with truncation to integer coordinates. -/
noncomputable def projectVertices (pw ph : ℤ) (c : CameraR) (world_verts : List Vec3R) :
    List (ℤ × ℤ × Option ℝ) :=
  let aspect : ℝ := (pw : ℝ) / (ph : ℝ)
  let view := viewMatrix c
  let proj := Mat4.perspective c.fov aspect c.znear c.zfar
  world_verts.map fun v_world =>
    let v_view := view.mulVec3 v_world
    let z_proj := v_view.z + c.zoom
    if z_proj ≤ c.znear then (0, 0, none)
    else
      let v_proj := proj.mulVec3 ⟨v_view.x, v_view.y, z_proj⟩
      (pyIntR ((v_proj.x * 0.5 + 0.5) * ((pw : ℝ) - 1)),
       pyIntR ((-v_proj.y * 0.5 + 0.5) * ((ph : ℝ) - 1)), some z_proj)

/-- C5 (amended): (i) a vertex whose view-space `z` plus the camera zoom is
at or behind `zNear` is marked `(0, 0, +inf)` instead of being projected;
(ii) a vertex strictly in front is mapped to
`px = int((ndc.x·0.5+0.5)·(pixelWidth−1))`,
`py = int((−ndc.y·0.5+0.5)·(pixelHeight−1))` with its adjusted view-space
depth; (iii) the flat/phong rasterizer silently skips (buffers unchanged,
call succeeds — the frame is never aborted) every triangle one of whose
projected vertices carries the `+inf` marker.  (For wireframe meshes, edges
between two validly projected vertices are still drawn; see the
counterexample.) -/
theorem project_vertices_spec :
    (∀ (pw ph : ℤ) (c : CameraR) (verts : List Vec3R) (i : ℕ) (v : Vec3R),
        verts.get? i = some v →
        ((viewMatrix c).mulVec3 v).z + c.zoom ≤ c.znear →
        (projectVertices pw ph c verts).get? i = some (0, 0, none)) ∧
    (∀ (pw ph : ℤ) (c : CameraR) (verts : List Vec3R) (i : ℕ) (v : Vec3R),
        verts.get? i = some v →
        c.znear < ((viewMatrix c).mulVec3 v).z + c.zoom →
        (projectVertices pw ph c verts).get? i =
          some (pyIntR ((((Mat4.perspective c.fov ((pw : ℝ) / (ph : ℝ)) c.znear
                c.zfar).mulVec3 ⟨((viewMatrix c).mulVec3 v).x,
                ((viewMatrix c).mulVec3 v).y,
                ((viewMatrix c).mulVec3 v).z + c.zoom⟩).x * 0.5 + 0.5) * ((pw : ℝ) - 1)),
            pyIntR ((-((Mat4.perspective c.fov ((pw : ℝ) / (ph : ℝ)) c.znear
                c.zfar).mulVec3 ⟨((viewMatrix c).mulVec3 v).x,
                ((viewMatrix c).mulVec3 v).y,
                ((viewMatrix c).mulVec3 v).z + c.zoom⟩).y * 0.5 + 0.5) * ((ph : ℝ) - 1)),
            some (((viewMatrix c).mulVec3 v).z + c.zoom))) ∧
    (∀ (shade : ShadeFn) (pw ph : ℤ) (tverts : List Vec3Q) (pverts : List PVert)
        (vcols : List (ℚ × ℚ × ℚ)) (bufs : Buffers) (f : ℕ × ℕ × ℕ) (p0 p1 p2 : PVert),
        pverts.get? f.1 = some p0 → pverts.get? f.2.1 = some p1 →
        pverts.get? f.2.2 = some p2 →
        (p0.2.2 = none ∨ p1.2.2 = none ∨ p2.2.2 = none) →
        processFace shade pw ph tverts pverts vcols bufs f = some bufs) := by
  refine ⟨?_, ?_, ?_⟩
  · intro pw ph c verts i v hv hz
    simp only [projectVertices, List.get?_map, hv, Option.map_some']
    rw [if_pos hz]
  · intro pw ph c verts i v hv hz
    simp only [projectVertices, List.get?_map, hv, Option.map_some']
    rw [if_neg (not_le.2 hz)]
  · intro shade pw ph tverts pverts vcols bufs f p0 p1 p2 hp0 hp1 hp2 hz
    rcases p0 with ⟨x0, y0, _ | z0⟩ <;> rcases p1 with ⟨x1, y1, _ | z1⟩ <;>
      rcases p2 with ⟨x2, y2, _ | z2⟩ <;>
        simp only [processFace, hp0, hp1, hp2, optBind_some] <;>
          first
            | rfl
            | (exfalso; simp at hz)

/-- C5 counterexample: the claim says every triangle with an invalid
(behind-camera, depth `+inf`) vertex is skipped with no pixel written, but
the wireframe path (renderer.py:372-380, taken before the `inf` check at
renderer.py:385-387) draws the face's edges anyway: on a 3x1 buffer, a
wireframe face whose third vertex carries the `inf` marker still paints
the full edge between its two valid vertices white. -/
theorem wireframe_draws_invalid_vertex_face :
    rasterizeTriangles (fun _ _ _ _ => (0, 0, 0)) 3 1
        ⟨[(0, 1, 2)], [], .wireframe⟩ []
        [(0, 0, some 5), (2, 0, some 5), (0, 0, none)]
        ⟨[(0, 0, 0, 0), (0, 0, 0, 0), (0, 0, 0, 0)], [none, none, none]⟩ =
      some ⟨[(255, 255, 255, 1), (255, 255, 255, 1), (255, 255, 255, 1)],
            [some 5, some 5, some 5]⟩ ∧
    ((255, 255, 255, 1) : Color4) ≠ (0, 0, 0, 0) := by
  constructor
  · norm_num [rasterizeTriangles, drawWireframe, drawLine, lineLoop, drawPixel, interpZ,
      wltB, dltB, pyGet, pySet, List.foldlM, optBind_some, List.get?, Int.toNat_ofNat] <;> rfl
  · decide

/-- Witness for C5: with a 3x1 pixel grid and a camera at the origin with
`fov = 90`, `znear = 1/10`, `zfar = 100`, `zoom = 0`: the world vertex
`(0,0,0)` has view z `0 ≤ znear` and is marked `(0, 0, +inf)`; the world
vertex `(0,0,1)` has view z `1 > znear` and projects to pixel `(1, 0)`
with depth `1`; and `processFace` on a face whose vertices carry the
`+inf` marker leaves a concrete buffer unchanged. -/
theorem project_vertices_spec_witness :
    (projectVertices 3 1 ⟨90, 1/10, 100, 0, ⟨0, 0, 0⟩, ⟨0, 0, 0⟩⟩ [⟨0, 0, 0⟩]).get? 0
        = some (0, 0, none) ∧
    (projectVertices 3 1 ⟨90, 1/10, 100, 0, ⟨0, 0, 0⟩, ⟨0, 0, 0⟩⟩ [⟨0, 0, 1⟩]).get? 0
        = some (1, 0, some 1) ∧
    processFace (fun _ _ _ _ => (0, 0, 0)) 1 1 [] [(0, 0, none)] []
        ⟨[(0, 0, 0, 0)], [none]⟩ (0, 0, 0) = some ⟨[(0, 0, 0, 0)], [none]⟩ := by
  have hv0 : (viewMatrix ⟨90, 1/10, 100, 0, ⟨0, 0, 0⟩, ⟨0, 0, 0⟩⟩).mulVec3 ⟨0, 0, 0⟩
      = ⟨0, 0, 0⟩ := by
    simp [viewMatrix, Mat4.rotate_x, Mat4.rotate_y, Mat4.rotate_z, Mat4.translate,
      Mat4.mulVec3, Matrix.mul_apply, Fin.sum_univ_four]
  have hv1 : (viewMatrix ⟨90, 1/10, 100, 0, ⟨0, 0, 0⟩, ⟨0, 0, 0⟩⟩).mulVec3 ⟨0, 0, 1⟩
      = ⟨0, 0, 1⟩ := by
    simp [viewMatrix, Mat4.rotate_x, Mat4.rotate_y, Mat4.rotate_z, Mat4.translate,
      Mat4.mulVec3, Matrix.mul_apply, Fin.sum_univ_four]
  refine ⟨?_, ?_, ?_⟩
  · exact project_vertices_spec.1 3 1 _ [⟨0, 0, 0⟩] 0 ⟨0, 0, 0⟩ rfl (by rw [hv0]; norm_num)
  · have h2 := project_vertices_spec.2.1 3 1 ⟨90, 1/10, 100, 0, ⟨0, 0, 0⟩, ⟨0, 0, 0⟩⟩
      [⟨0, 0, 1⟩] 0 ⟨0, 0, 1⟩ rfl (by rw [hv1]; norm_num)
    rw [hv1] at h2
    rw [h2]
    norm_num [Mat4.perspective, Mat4.mulVec3, pyIntR, radians]
  · exact project_vertices_spec.2.2 (fun _ _ _ _ => (0, 0, 0)) 1 1 [] [(0, 0, none)] []
      ⟨[(0, 0, 0, 0)], [none]⟩ (0, 0, 0) (0, 0, none) (0, 0, none) (0, 0, none)
      rfl rfl rfl (Or.inl rfl)

/-! ## Terminal composition (renderer.Renderer.compose_to_chars, utils.py) -/

/-- `utils.RESET`. -/
def RESET : String := "\x1b[0m"

/-- `utils.fg_rgb`: the foreground truecolor ANSI sequence (its arguments
are already integers at the call site in `compose_to_chars`). -/
def fg_rgb (r g b : ℤ) : String :=
  "\x1b[38;2;" ++ toString r ++ ";" ++ toString g ++ ";" ++ toString b ++ "m"

/-- `utils.bg_rgb`: the background truecolor ANSI sequence. -/
def bg_rgb (r g b : ℤ) : String :=
  "\x1b[48;2;" ++ toString r ++ ";" ++ toString g ++ ";" ++ toString b ++ "m"

/-- The sub-pixel accumulation loops of one character cell of
`compose_to_chars` (renderer.py:505-529): sum the color components of the
`int(res_factor)`-square block of sub-pixels for the top and the bottom
half of the cell, every read index min-clamped to the last pixel row /
column. -/
def composeSums (r : Renderer) (cy cx : ℤ) : Option ((ℤ × ℤ × ℤ) × (ℤ × ℤ × ℤ)) :=
  let f := r.res_factor
  let top_y_base := pyInt ((cy : ℚ) * 2 * f)
  let bot_y_base := pyInt (((cy : ℚ) * 2 + 1) * f)
  let col_base := pyInt ((cx : ℚ) * f)
  (List.range (pyInt f).toNat).foldlM
    (fun (acc : (ℤ × ℤ × ℤ) × (ℤ × ℤ × ℤ)) (sy : ℕ) =>
      let ty := min (top_y_base + (sy : ℤ)) (r.pixel_height - 1)
      let byv := min (bot_y_base + (sy : ℤ)) (r.pixel_height - 1)
      let row_offset_t := ty * r.pixel_width
      let row_offset_b := byv * r.pixel_width
      (List.range (pyInt f).toNat).foldlM
        (fun (acc2 : (ℤ × ℤ × ℤ) × (ℤ × ℤ × ℤ)) (sx : ℕ) => do
          let px := min (col_base + (sx : ℤ)) (r.pixel_width - 1)
          let top_pixel_color ← pyGet r.color_buffer (row_offset_t + px)
          let bot_pixel_color ← pyGet r.color_buffer (row_offset_b + px)
          pure ((acc2.1.1 + top_pixel_color.1, acc2.1.2.1 + top_pixel_color.2.1,
                 acc2.1.2.2 + top_pixel_color.2.2.1),
                (acc2.2.1 + bot_pixel_color.1, acc2.2.2.1 + bot_pixel_color.2.1,
                 acc2.2.2.2 + bot_pixel_color.2.2.1))) acc)
    ((0, 0, 0), (0, 0, 0))

/-- One character cell of `compose_to_chars` (renderer.py:501-537): average
the accumulated sums by floor-dividing by `sub_pixels_per_char =
int(res_factor * res_factor)` (a `ZeroDivisionError`, modelled as `none`,
when that is `0`) and produce the ANSI-colored half-block glyph. -/
def composeCell (r : Renderer) (cy cx : ℤ) : Option String := do
  let sub_pixels_per_char := pyInt (r.res_factor * r.res_factor)
  let sums ← composeSums r cy cx
  let tr ← pyFloorDiv sums.1.1 sub_pixels_per_char
  let tg ← pyFloorDiv sums.1.2.1 sub_pixels_per_char
  let tb ← pyFloorDiv sums.1.2.2 sub_pixels_per_char
  let br ← pyFloorDiv sums.2.1 sub_pixels_per_char
  let bgc ← pyFloorDiv sums.2.2.1 sub_pixels_per_char
  let bb ← pyFloorDiv sums.2.2.2 sub_pixels_per_char
  pure (fg_rgb tr tg tb ++ bg_rgb br bgc bb ++ "▀" ++ RESET)

/-- `compose_to_chars` (renderer.py:479-541): one output line per character
row, each line the concatenation of one glyph per character column. -/
def compose_to_chars (r : Renderer) : Option (List String) :=
  (List.range r.base_height_chars.toNat).mapM fun (cy : ℕ) => do
    let row_chars ← (List.range r.base_width_chars.toNat).mapM fun (cx : ℕ) =>
      composeCell r (cy : ℤ) (cx : ℤ)
    pure (String.join row_chars)

/-- A fold in the `Option` monad whose body always succeeds succeeds. -/
theorem foldlM_total (f : β → α → Option β) (l : List α)
    (h : ∀ b a, a ∈ l → ∃ b2, f b a = some b2) :
    ∀ b0 : β, ∃ res, l.foldlM f b0 = some res := by
  induction l with
  | nil => exact fun b0 => ⟨b0, rfl⟩
  | cons x xs ih =>
    intro b0
    obtain ⟨b1, hb1⟩ := h b0 x (List.mem_cons_self _ _)
    obtain ⟨res, hres⟩ := ih (fun b a ha => h b a (List.mem_cons_of_mem _ ha)) b1
    exact ⟨res, by rw [List.foldlM_cons, hb1, optBind_some, hres]⟩

/-- A map in the `Option` monad whose body always succeeds with a value
satisfying `P` succeeds with a list of the same length, all entries
satisfying `P`. -/
theorem mapM_shape (f : α → Option β) (P : β → Prop) :
    ∀ l : List α, (∀ x ∈ l, ∃ y, f x = some y ∧ P y) →
      ∃ ys, l.mapM f = some ys ∧ ys.length = l.length ∧ ∀ y ∈ ys, P y := by
  intro l
  induction l with
  | nil => exact fun _ => ⟨[], rfl, rfl, by simp⟩
  | cons x xs ih =>
    intro h
    obtain ⟨y, hy, hPy⟩ := h x (List.mem_cons_self _ _)
    obtain ⟨ys, hys, hlen, hall⟩ := ih (fun a ha => h a (List.mem_cons_of_mem _ ha))
    refine ⟨y :: ys, ?_, by simp [hlen], ?_⟩
    · rw [List.mapM_cons, hy, optBind_some, hys, optBind_some]; rfl
    · intro z hz
      rcases List.mem_cons.mp hz with h1 | h2
      · exact h1 ▸ hPy
      · exact hall z h2

/-- `none` propagates through `Option` bind. -/
theorem optBind_none (f : α → Option β) : (none : Option α) >>= f = none := rfl

/-- `pyInt` of a nonnegative float is nonnegative. -/
theorem pyInt_nonneg (q : ℚ) (h : 0 ≤ q) : 0 ≤ pyInt q := by
  rw [pyInt, if_pos h]
  exact Int.floor_nonneg.mpr h

/-- Every min-clamped sub-pixel read of `compose_to_chars` lands inside a
buffer of exactly `pixel_width * pixel_height` entries. -/
theorem composeRead_some (r : Renderer) (hpw : 1 ≤ r.pixel_width) (hph : 1 ≤ r.pixel_height)
    (hlen : r.color_buffer.length = (r.pixel_width * r.pixel_height).toNat)
    (t p : ℤ) (ht : 0 ≤ t) (hp : 0 ≤ p) :
    ∃ c, pyGet r.color_buffer
        (min t (r.pixel_height - 1) * r.pixel_width + min p (r.pixel_width - 1)) = some c := by
  have h0 : 0 ≤ min t (r.pixel_height - 1) * r.pixel_width + min p (r.pixel_width - 1) :=
    add_nonneg (mul_nonneg (le_min ht (by omega)) (by omega)) (le_min hp (by omega))
  have hub : min t (r.pixel_height - 1) * r.pixel_width + min p (r.pixel_width - 1)
      < r.pixel_width * r.pixel_height := by
    have h1 : min t (r.pixel_height - 1) ≤ r.pixel_height - 1 := min_le_right _ _
    have h2 : min p (r.pixel_width - 1) ≤ r.pixel_width - 1 := min_le_right _ _
    have h3 : min t (r.pixel_height - 1) * r.pixel_width
        ≤ (r.pixel_height - 1) * r.pixel_width :=
      mul_le_mul_of_nonneg_right h1 (by omega)
    nlinarith
  rw [pyGet_nonneg _ _ h0]
  have hlt : (min t (r.pixel_height - 1) * r.pixel_width
      + min p (r.pixel_width - 1)).toNat < r.color_buffer.length := by
    rw [hlen]; omega
  exact ⟨_, get?_eq_some_getD _ _ (0, 0, 0, 0) hlt⟩

/-- Under the lengths/dimensions invariant, the sub-pixel accumulation of a
character cell never fails (all clamped reads are in bounds). -/
theorem composeSums_some (r : Renderer) (hf : 0 ≤ r.res_factor) (hpw : 1 ≤ r.pixel_width)
    (hph : 1 ≤ r.pixel_height)
    (hlen : r.color_buffer.length = (r.pixel_width * r.pixel_height).toNat)
    (cy cx : ℤ) (hcy : 0 ≤ cy) (hcx : 0 ≤ cx) :
    ∃ s, composeSums r cy cx = some s := by
  have hcyQ : (0 : ℚ) ≤ (cy : ℚ) := by exact_mod_cast hcy
  have hcxQ : (0 : ℚ) ≤ (cx : ℚ) := by exact_mod_cast hcx
  have htop : 0 ≤ pyInt ((cy : ℚ) * 2 * r.res_factor) :=
    pyInt_nonneg _ (mul_nonneg (by linarith) hf)
  have hbot : 0 ≤ pyInt (((cy : ℚ) * 2 + 1) * r.res_factor) :=
    pyInt_nonneg _ (mul_nonneg (by linarith) hf)
  have hcol : 0 ≤ pyInt ((cx : ℚ) * r.res_factor) :=
    pyInt_nonneg _ (mul_nonneg hcxQ hf)
  simp only [composeSums]
  refine foldlM_total _ _ ?_ _
  intro b sy _
  dsimp only
  refine foldlM_total _ _ ?_ b
  intro b2 sx _
  obtain ⟨ctop, hctop⟩ := composeRead_some r hpw hph hlen
    (pyInt ((cy : ℚ) * 2 * r.res_factor) + (sy : ℤ))
    (pyInt ((cx : ℚ) * r.res_factor) + (sx : ℤ))
    (add_nonneg htop (Int.natCast_nonneg _)) (add_nonneg hcol (Int.natCast_nonneg _))
  obtain ⟨cbot, hcbot⟩ := composeRead_some r hpw hph hlen
    (pyInt (((cy : ℚ) * 2 + 1) * r.res_factor) + (sy : ℤ))
    (pyInt ((cx : ℚ) * r.res_factor) + (sx : ℤ))
    (add_nonneg hbot (Int.natCast_nonneg _)) (add_nonneg hcol (Int.natCast_nonneg _))
  exact ⟨_, by rw [hctop, optBind_some, hcbot, optBind_some]; rfl⟩

/-- Under the invariant and a resolution factor of at least 1, every
character cell composes successfully to an ANSI half-block glyph. -/
theorem composeCell_glyph (r : Renderer) (hf : 1 ≤ r.res_factor) (hpw : 1 ≤ r.pixel_width)
    (hph : 1 ≤ r.pixel_height)
    (hlen : r.color_buffer.length = (r.pixel_width * r.pixel_height).toNat)
    (cy cx : ℤ) (hcy : 0 ≤ cy) (hcx : 0 ≤ cx) :
    ∃ t b : ℤ × ℤ × ℤ, composeCell r cy cx =
      some (fg_rgb t.1 t.2.1 t.2.2 ++ bg_rgb b.1 b.2.1 b.2.2 ++ "▀" ++ RESET) := by
  obtain ⟨sums, hsums⟩ := composeSums_some r (le_trans zero_le_one hf) hpw hph hlen cy cx hcy hcx
  have hsq : (1 : ℚ) ≤ r.res_factor * r.res_factor := by nlinarith
  have hsub : pyInt (r.res_factor * r.res_factor) ≠ 0 := by
    have h1 : (1 : ℤ) ≤ pyInt (r.res_factor * r.res_factor) := by
      rw [pyInt, if_pos (le_trans zero_le_one hsq)]
      exact Int.le_floor.mpr (by exact_mod_cast hsq)
    omega
  refine ⟨(Int.fdiv sums.1.1 (pyInt (r.res_factor * r.res_factor)),
           Int.fdiv sums.1.2.1 (pyInt (r.res_factor * r.res_factor)),
           Int.fdiv sums.1.2.2 (pyInt (r.res_factor * r.res_factor))),
          (Int.fdiv sums.2.1 (pyInt (r.res_factor * r.res_factor)),
           Int.fdiv sums.2.2.1 (pyInt (r.res_factor * r.res_factor)),
           Int.fdiv sums.2.2.2 (pyInt (r.res_factor * r.res_factor))), ?_⟩
  simp only [composeCell, hsums, optBind_some, pyFloorDiv, if_neg hsub]
  rfl

/-- C10: the claim promises `base_height_chars` lines of `base_width_chars`
glyphs "independent of the current resolution factor", but for any
fractional factor below 1 (render qualities 0-2 map to 1/2, 2/3, 3/4)
`sub_pixels_per_char = int(res_factor^2)` is `0` and the very first cell
raises `ZeroDivisionError` (renderer.py:492,532), so composition crashes
instead of returning lines (first conjunct, at quality 0 on a 30x12 grid).
For factors of at least 1 with a consistent buffer the claimed shape does
hold: exactly `base_height_chars` lines, each the concatenation of exactly
`base_width_chars` ANSI half-block glyph cells, and no read is ever out of
bounds (second conjunct). -/
theorem compose_to_chars_zero_division :
    compose_to_chars (setResolutionFactor (Renderer.init 30 12) (1 / 2)) = none ∧
    (∀ r : Renderer, 1 ≤ r.res_factor → 1 ≤ r.pixel_width → 1 ≤ r.pixel_height →
      r.color_buffer.length = (r.pixel_width * r.pixel_height).toNat →
      ∃ lines, compose_to_chars r = some lines ∧
        lines.length = r.base_height_chars.toNat ∧
        ∀ line ∈ lines, ∃ cells : List String,
          line = String.join cells ∧ cells.length = r.base_width_chars.toNat ∧
          ∀ c ∈ cells, ∃ t b : ℤ × ℤ × ℤ,
            c = fg_rgb t.1 t.2.1 t.2.2 ++ bg_rgb b.1 b.2.1 b.2.2 ++ "▀" ++ RESET) := by
  constructor
  · have hnone : ∀ cy cx : ℤ,
        composeCell (setResolutionFactor (Renderer.init 30 12) (1 / 2)) cy cx = none := by
      intro cy cx
      have hs : composeSums (setResolutionFactor (Renderer.init 30 12) (1 / 2)) cy cx
          = some ((0, 0, 0), (0, 0, 0)) := by
        norm_num [composeSums, setResolutionFactor, Renderer.init, pyInt]
      simp only [composeCell, hs, optBind_some]
      norm_num [pyFloorDiv, setResolutionFactor, Renderer.init, pyInt]
    have hH : (setResolutionFactor (Renderer.init 30 12) (1 / 2)).base_height_chars = 12 := by
      norm_num [setResolutionFactor, Renderer.init]
    have hW : (setResolutionFactor (Renderer.init 30 12) (1 / 2)).base_width_chars = 30 := by
      norm_num [setResolutionFactor, Renderer.init]
    simp only [compose_to_chars, hH, hW, hnone,
      show ((12 : ℤ)).toNat = 11 + 1 from rfl, show ((30 : ℤ)).toNat = 29 + 1 from rfl,
      List.range_succ_eq_map, List.mapM_cons, optBind_none]
  · intro r hf hpw hph hlen
    have hw : ∀ cy ∈ List.range r.base_height_chars.toNat, ∃ y,
        (do
          let row_chars ← (List.range r.base_width_chars.toNat).mapM fun (cx : ℕ) =>
            composeCell r (cy : ℤ) (cx : ℤ)
          pure (String.join row_chars) : Option String) = some y ∧
        (∃ cells : List String, y = String.join cells ∧
          cells.length = r.base_width_chars.toNat ∧
          ∀ c ∈ cells, ∃ t b : ℤ × ℤ × ℤ,
            c = fg_rgb t.1 t.2.1 t.2.2 ++ bg_rgb b.1 b.2.1 b.2.2 ++ "▀" ++ RESET) := by
      intro cy _
      obtain ⟨cells, hc1, hc2, hc3⟩ := mapM_shape
        (fun cx : ℕ => composeCell r (cy : ℤ) (cx : ℤ))
        (fun c => ∃ t b : ℤ × ℤ × ℤ,
          c = fg_rgb t.1 t.2.1 t.2.2 ++ bg_rgb b.1 b.2.1 b.2.2 ++ "▀" ++ RESET)
        (List.range r.base_width_chars.toNat)
        (fun cx _ => by
          obtain ⟨t, b, hg⟩ := composeCell_glyph r hf hpw hph hlen (cy : ℤ) (cx : ℤ)
            (Int.natCast_nonneg _) (Int.natCast_nonneg _)
          exact ⟨_, hg, t, b, rfl⟩)
      refine ⟨String.join cells, ?_, cells, rfl, ?_, hc3⟩
      · rw [hc1, optBind_some]; rfl
      · rw [hc2, List.length_range]
    obtain ⟨lines, h1, h2, h3⟩ := mapM_shape
      (fun cy : ℕ => do
        let row_chars ← (List.range r.base_width_chars.toNat).mapM fun (cx : ℕ) =>
          composeCell r (cy : ℤ) (cx : ℤ)
        pure (String.join row_chars))
      (fun y => ∃ cells : List String, y = String.join cells ∧
        cells.length = r.base_width_chars.toNat ∧
        ∀ c ∈ cells, ∃ t b : ℤ × ℤ × ℤ,
          c = fg_rgb t.1 t.2.1 t.2.2 ++ bg_rgb b.1 b.2.1 b.2.2 ++ "▀" ++ RESET)
      (List.range r.base_height_chars.toNat) hw
    exact ⟨lines, h1, by rw [h2, List.length_range], h3⟩

/-- Witness for C10: a 1x1-character renderer at resolution factor 1 (one
pixel column, two pixel rows, a two-entry buffer) satisfies the invariant,
and composition succeeds with the claimed shape. -/
theorem compose_to_chars_zero_division_witness :
    ∃ lines, compose_to_chars (setResolutionFactor (Renderer.init 1 1) 1) = some lines ∧
      lines.length = (setResolutionFactor (Renderer.init 1 1) 1).base_height_chars.toNat ∧
      ∀ line ∈ lines, ∃ cells : List String,
        line = String.join cells ∧
        cells.length = (setResolutionFactor (Renderer.init 1 1) 1).base_width_chars.toNat ∧
        ∀ c ∈ cells, ∃ t b : ℤ × ℤ × ℤ,
          c = fg_rgb t.1 t.2.1 t.2.2 ++ bg_rgb b.1 b.2.1 b.2.2 ++ "▀" ++ RESET :=
  compose_to_chars_zero_division.2 _
    (by norm_num [setResolutionFactor, Renderer.init])
    (by norm_num [setResolutionFactor, Renderer.init, pyInt])
    (by norm_num [setResolutionFactor, Renderer.init, pyInt])
    (by norm_num [setResolutionFactor, Renderer.init, pyInt])
